import Mathlib

/-!
# Field-level encryption client (`cipher`): shallow embedding and verification

The development embeds `client.go` (functions `Encrypt`, `Decrypt`,
`getEncryptedFields`) together with the parts of the Go run time they rely on
(`reflect` field access, `encoding/base64`, the `Logical().Write` call of the
Vault client), and proves properties of the embedded functions.

Conventions.
* A Go `string` is a sequence of bytes (`GoString`); `[]byte(s)` and
  `string(b)` are the identity on that sequence.
* A run-time panic is an explicit outcome (`Outcome.panicked`), distinct from
  returning an `error` value.
* The remote service is a function from the written path and request body to
  the pair `(*Secret, error)` returned by `Logical().Write`.
* Struct types with embedded (anonymous) fields are outside the model:
  `FieldByName` is the search among the top-level fields.
-/

namespace Cipher

/-! ## Bytes and strings -/

/-- One byte. -/
abbrev Byte := Fin 256

/-- A Go string: an immutable sequence of bytes. -/
abbrev GoString := List Byte

/-- UTF-8 encoding of one code point, as the Go compiler stores string literals. -/
def utf8 (c : Char) : List Byte :=
  let n := c.toNat
  if n < 128 then [Fin.ofNat n]
  else if n < 2048 then [Fin.ofNat (192 + n / 64), Fin.ofNat (128 + n % 64)]
  else if n < 65536 then
    [Fin.ofNat (224 + n / 4096), Fin.ofNat (128 + n / 64 % 64), Fin.ofNat (128 + n % 64)]
  else
    [Fin.ofNat (240 + n / 262144), Fin.ofNat (128 + n / 4096 % 64),
     Fin.ofNat (128 + n / 64 % 64), Fin.ofNat (128 + n % 64)]

/-- The bytes of a source-code string literal. -/
def gostr (s : String) : GoString := s.toList.flatMap utf8

/-! ## `encoding/base64`, `StdEncoding` -/

/-- The alphabet `encodeStd` of `encoding/base64`. -/
def encodeStd : GoString :=
  gostr "ABCDEFGHIJKLMNOPQRSTUVWXYZabcdefghijklmnopqrstuvwxyz0123456789+/"

/-- The padding character `StdPadding`, the byte of `=`. -/
def padChar : Byte := 61

/-- Table lookup `enc.encode[i]`. -/
def encodeByte (i : Nat) : Byte := encodeStd.getD i 0

/-- Table `enc.decodeMap`: the 6-bit value of an alphabet byte, `none` where the
Go table holds `0xff`. -/
def decodeMap (c : Byte) : Option Nat :=
  let i := encodeStd.indexOf c
  if i < 64 then some i else none

/-- `StdEncoding.EncodeToString` on the bytes of its argument: three bytes give
four alphabet bytes, a final group of one or two bytes is padded with `=`. -/
def EncodeToString : List Byte → GoString
  | [] => []
  | [a] =>
    let val := a.val * 65536
    [encodeByte (val / 262144 % 64), encodeByte (val / 4096 % 64), padChar, padChar]
  | [a, b] =>
    let val := a.val * 65536 + b.val * 256
    [encodeByte (val / 262144 % 64), encodeByte (val / 4096 % 64),
     encodeByte (val / 64 % 64), padChar]
  | a :: b :: c :: rest =>
    let val := a.val * 65536 + b.val * 256 + c.val
    encodeByte (val / 262144 % 64) :: encodeByte (val / 4096 % 64) ::
      encodeByte (val / 64 % 64) :: encodeByte (val % 64) :: EncodeToString rest

/-- The decoder skips carriage returns and line feeds wherever they occur. -/
def stripNewlines (s : GoString) : GoString :=
  s.filter (fun c => !(c == 10 || c == 13))

/-- The three bytes of `d0<<18 | d1<<12 | d2<<6 | d3`. -/
def quantumBytes (d0 d1 d2 d3 : Nat) : List Byte :=
  let val := d0 * 262144 + d1 * 4096 + d2 * 64 + d3
  [Fin.ofNat (val / 65536), Fin.ofNat (val / 256), Fin.ofNat val]

/-- The loop over `decodeQuantum` on input without newlines: groups of four
alphabet bytes; padding is mandatory, allowed in the last group only, and
nothing may follow it. `none` stands for `CorruptInputError`. -/
def decodeQuanta : List Byte → Option (List Byte)
  | [] => some []
  | c0 :: c1 :: c2 :: c3 :: rest =>
    match decodeMap c0, decodeMap c1 with
    | some d0, some d1 =>
      match decodeMap c2 with
      | some d2 =>
        match decodeMap c3 with
        | some d3 =>
          match decodeQuanta rest with
          | some out => some (quantumBytes d0 d1 d2 d3 ++ out)
          | none => none
        | none =>
          if c3 = padChar ∧ rest = [] then some ((quantumBytes d0 d1 d2 0).take 2) else none
      | none =>
        if c2 = padChar ∧ c3 = padChar ∧ rest = [] then
          some ((quantumBytes d0 d1 0 0).take 1)
        else none
    | _, _ => none
  | _ => none

/-- `StdEncoding.DecodeString`: `some` of the decoded bytes when the returned
error is nil, `none` when it is a `CorruptInputError`. -/
def DecodeString (s : GoString) : Option (List Byte) :=
  decodeQuanta (stripNewlines s)

/-! ## Types, values and struct fields (`reflect`) -/

/-- Go types that can occur as the declared type of a struct field. A defined
type (`type T string`) is `named`: it is distinct from its underlying type. -/
inductive GoType
  | bool
  | int
  | string
  | named (name : GoString) (underlying : GoType)
  deriving DecidableEq

/-- The kinds `reflect.Kind` that the model distinguishes. -/
inductive Kind
  | Bool
  | Int
  | String
  deriving DecidableEq

/-- The method `Type.Kind()`: a defined type has the kind of its underlying type. -/
def GoType.Kind : GoType → Kind
  | .bool => .Bool
  | .int => .Int
  | .string => .String
  | .named _ u => u.Kind

/-- The method `Type.String()`. -/
def GoType.String : GoType → GoString
  | .bool => gostr "bool"
  | .int => gostr "int"
  | .string => gostr "string"
  | .named name _ => name

/-- The payload of a scalar variable. -/
inductive GoValue
  | bool (b : Bool)
  | int (n : Int)
  | str (s : GoString)
  deriving DecidableEq

/-- The kind of a payload. -/
def GoValue.Kind : GoValue → Kind
  | .bool _ => .Bool
  | .int _ => .Int
  | .str _ => .String

/-- A struct tag in its conventional form, a sequence of `key:"value"` pairs. -/
abbrev StructTag := List (GoString × GoString)

/-- The method `StructTag.Get`: the value of the first pair with the key, the
empty string when there is none. -/
def StructTag.Get (tag : StructTag) (key : GoString) : GoString :=
  (tag.lookup key).getD []

/-- The fields of `reflect.StructField` that the program reads. `PkgPath` is
empty exactly for exported fields. -/
structure StructField where
  Name : GoString
  PkgPath : GoString
  Typ : GoType
  Tag : StructTag
  deriving DecidableEq

/-- One field of a struct variable: its descriptor and its current payload. -/
structure Field where
  desc : StructField
  value : GoValue
  deriving DecidableEq

/-- A struct variable: its fields in declaration order. -/
abbrev Record := List Field

/-- The struct type as `reflect.TypeOf` reports it: the field descriptors in
declaration order. -/
abbrev StructType := List StructField

/-- The call `reflect.TypeOf(s)` for a struct `s`. -/
def TypeOf (s : Record) : StructType := s.map Field.desc

/-- The method `Value.FieldByName` on a struct without embedded fields: the
first field with the name; `none` is the zero `Value`. -/
def Record.FieldByName (value : Record) (name : GoString) : Option Field :=
  if name = [] then none else value.find? (fun f => f.desc.Name = name)

/-- The method `Value.String()`. A value of kind `String` yields its payload,
any other value the text `<T Value>`, the zero `Value` the text
`<invalid Value>`. (A field of kind `String` always carries a string payload;
the last-but-one branch is unreachable on well-typed records.) -/
def Value.String : Option Field → GoString
  | none => gostr "<invalid Value>"
  | some f =>
    if f.desc.Typ.Kind = Kind.String then
      match f.value with
      | .str s => s
      | _ => []
    else gostr "<" ++ f.desc.Typ.String ++ gostr " Value>"

/-- Store `x` in the first field called `name`; the descriptors are untouched. -/
def Record.assign (name : GoString) (x : GoString) : Record → Record
  | [] => []
  | f :: rest =>
    if f.desc.Name = name then { f with value := GoValue.str x } :: rest
    else f :: Record.assign name x rest

/-- The statement `value.FieldByName(name).SetString(x)` on an addressable
struct. `SetString` panics (`none`) on the zero `Value`, on a value obtained
through an unexported field, and on a value whose kind is not `String`. -/
def Record.SetString (value : Record) (name : GoString) (x : GoString) : Option Record :=
  match value.FieldByName name with
  | none => none
  | some f =>
    if f.desc.PkgPath ≠ [] then none
    else if f.desc.Typ.Kind ≠ Kind.String then none
    else some (Record.assign name x value)

/-! ## Errors, outcomes, dynamic values -/

/-- The error values the program can return. -/
inductive GoError
  | errorsNew (text : String)
  | corruptInput
  | remote (text : String)
  deriving DecidableEq

/-- Causes of a run-time panic. -/
inductive Panic
  | nilDereference
  | typeAssertion
  | reflectMisuse
  deriving DecidableEq

/-- How a call ends: it returns an error value (`none` is the nil error) or the
goroutine panics. -/
inductive Outcome
  | returned (err : Option GoError)
  | panicked (cause : Panic)
  deriving DecidableEq

/-- Values of type `any` as they occur in a decoded response. -/
inductive Any
  | nil
  | bool (b : Bool)
  | number (n : Int)
  | str (s : GoString)
  | slice (elems : List Any)
  | map (entries : List (GoString × Any))

/-- The index expression `m[key]` on a `map[string]any`: the zero value `nil`
when the key is absent. -/
def mapIndex (m : List (GoString × Any)) (key : GoString) : Any :=
  (m.lookup key).getD Any.nil

/-- The values the program stores in a batch item: a byte slice or a string. -/
inductive ItemValue
  | bytes (b : List Byte)
  | str (s : GoString)
  deriving DecidableEq

/-- One element of `batchInput`, a `map[string]any` literal with two keys. -/
abbrev BatchItem := List (GoString × ItemValue)

/-- The request body `map[string]any` with the single key `batch_input`. -/
abbrev Request := List (GoString × List BatchItem)

/-- What `Logical().Write` returns: a non-nil error, or a nil error with a nil
secret (the service answered without a body), or a secret with its `Data`. -/
inductive WriteResult
  | failed (err : GoError)
  | nilSecret
  | secret (Data : List (GoString × Any))

/-- The client. Its only component is the behaviour of
`vaultClient.Logical().Write(path, request)`. -/
structure Client where
  vaultClient : GoString → Request → WriteResult

/-- What a variable of a pointer can hold: a struct or something else. -/
inductive Target
  | scalar (v : GoValue)
  | struct (s : Record)
  deriving DecidableEq

/-- The argument `obj any`. -/
inductive Obj
  | nil
  | direct (t : Target)
  | nilPtr
  | ptr (t : Target)
  deriving DecidableEq

/-- One remote write: the path and the request body. -/
abbrev Call := GoString × Request

instance : DecidableEq BatchItem := inferInstanceAs (DecidableEq (List (GoString × ItemValue)))

instance : DecidableEq Request :=
  inferInstanceAs (DecidableEq (List (GoString × List BatchItem)))

instance : DecidableEq Call := inferInstanceAs (DecidableEq (GoString × Request))

/-- The observable result of one call of `Encrypt` or `Decrypt`: the argument
after the call (with the variable behind the pointer as the call left it), the
remote writes issued in order, and how the call ended. -/
structure Run where
  obj : Obj
  calls : List Call
  outcome : Outcome
  deriving DecidableEq

/-! ## The program -/

/-- Loop of `getEncryptedFields` over the fields from index `i` on, with the
slice built so far. -/
def getEncryptedFields.loop (encryptedFields : List StructField) :
    List StructField → List StructField
  | [] => encryptedFields
  | field :: rest =>
    let tag := field.Tag.Get (gostr "encrypted")
    if tag = gostr "true" ∧ field.Typ = GoType.string then
      getEncryptedFields.loop (encryptedFields ++ [field]) rest
    else getEncryptedFields.loop encryptedFields rest

/-- Function `getEncryptedFields` on the type `st` of its struct argument. -/
def getEncryptedFields (st : StructType) : List StructField :=
  getEncryptedFields.loop [] st

/-- The loop of `Encrypt` over `results`. -/
def encryptResults (value : Record) : List Any → Record × Outcome
  | [] => (value, Outcome.returned none)
  | result :: rest =>
    match result with
    | Any.map batchResult =>
      match mapIndex batchResult (gostr "reference") with
      | Any.str ref =>
        match DecodeString ref with
        | none => (value, Outcome.returned (some GoError.corruptInput))
        | some reference =>
          match mapIndex batchResult (gostr "ciphertext") with
          | Any.str ciphertext =>
            match value.SetString reference ciphertext with
            | some value1 => encryptResults value1 rest
            | none => (value, Outcome.panicked Panic.reflectMisuse)
          | _ => (value, Outcome.panicked Panic.typeAssertion)
      | _ => (value, Outcome.panicked Panic.typeAssertion)
    | _ => (value, Outcome.returned (some (GoError.errorsNew "invalid batch result")))

/-- Method `Client.Encrypt`. -/
def Encrypt (c : Client) (obj : Obj) (encryptionKey : GoString) : Run :=
  if encryptionKey = [] then
    ⟨obj, [], Outcome.returned (some (GoError.errorsNew "encryption key is empty"))⟩
  else
    match obj with
    | Obj.nil => ⟨obj, [], Outcome.returned (some (GoError.errorsNew "obj must be a pointer"))⟩
    | Obj.direct _ =>
      ⟨obj, [], Outcome.returned (some (GoError.errorsNew "obj must be a pointer"))⟩
    | Obj.nilPtr => ⟨obj, [], Outcome.panicked Panic.reflectMisuse⟩
    | Obj.ptr (Target.scalar _) => ⟨obj, [], Outcome.panicked Panic.reflectMisuse⟩
    | Obj.ptr (Target.struct value) =>
      let fields := getEncryptedFields (TypeOf value)
      if fields.length ≤ 0 then ⟨obj, [], Outcome.returned none⟩
      else
        let batchInput : List BatchItem := fields.map (fun field =>
          [(gostr "plaintext", ItemValue.bytes (Value.String (value.FieldByName field.Name))),
           (gostr "reference", ItemValue.bytes field.Name)])
        let request : Request := [(gostr "batch_input", batchInput)]
        let transitPath := gostr "transit/encrypt/" ++ encryptionKey
        match c.vaultClient transitPath request with
        | WriteResult.failed err => ⟨obj, [(transitPath, request)], Outcome.returned (some err)⟩
        | WriteResult.nilSecret =>
          ⟨obj, [(transitPath, request)], Outcome.panicked Panic.nilDereference⟩
        | WriteResult.secret Data =>
          match mapIndex Data (gostr "batch_results") with
          | Any.slice results =>
            ⟨Obj.ptr (Target.struct (encryptResults value results).1),
              [(transitPath, request)], (encryptResults value results).2⟩
          | _ =>
            ⟨obj, [(transitPath, request)], Outcome.returned
              (some (GoError.errorsNew "batch_results not found in the response data"))⟩

/-- The loop of `Decrypt` over `results`. The first type assertion on `result`
has no `ok` and panics; the second, checked one, then always succeeds. -/
def decryptResults (value : Record) : List Any → Record × Outcome
  | [] => (value, Outcome.returned none)
  | result :: rest =>
    match result with
    | Any.map _ =>
      match result with
      | Any.map batchResult =>
        match mapIndex batchResult (gostr "reference") with
        | Any.str reference =>
          match mapIndex batchResult (gostr "plaintext") with
          | Any.str plaintext =>
            match DecodeString plaintext with
            | none => (value, Outcome.returned (some GoError.corruptInput))
            | some val =>
              match value.SetString reference val with
              | some value1 => decryptResults value1 rest
              | none => (value, Outcome.panicked Panic.reflectMisuse)
          | _ => (value, Outcome.panicked Panic.typeAssertion)
        | _ => (value, Outcome.panicked Panic.typeAssertion)
      | _ => (value, Outcome.returned (some (GoError.errorsNew "invalid batch result")))
    | _ => (value, Outcome.panicked Panic.typeAssertion)

/-- Method `Client.Decrypt`. The first type assertion on
`res.Data["batch_results"]` has no `ok` and panics; the checked one follows. -/
def Decrypt (c : Client) (obj : Obj) (encryptionKey : GoString) : Run :=
  if encryptionKey = [] then
    ⟨obj, [], Outcome.returned (some (GoError.errorsNew "encryption key is empty"))⟩
  else
    match obj with
    | Obj.nil => ⟨obj, [], Outcome.returned (some (GoError.errorsNew "obj must be a pointer"))⟩
    | Obj.direct _ =>
      ⟨obj, [], Outcome.returned (some (GoError.errorsNew "obj must be a pointer"))⟩
    | Obj.nilPtr => ⟨obj, [], Outcome.panicked Panic.reflectMisuse⟩
    | Obj.ptr (Target.scalar _) => ⟨obj, [], Outcome.panicked Panic.reflectMisuse⟩
    | Obj.ptr (Target.struct value) =>
      let fields := getEncryptedFields (TypeOf value)
      if fields.length ≤ 0 then ⟨obj, [], Outcome.returned none⟩
      else
        let batchInput : List BatchItem := fields.map (fun field =>
          [(gostr "ciphertext", ItemValue.str (Value.String (value.FieldByName field.Name))),
           (gostr "reference", ItemValue.str field.Name)])
        let request : Request := [(gostr "batch_input", batchInput)]
        let transitPath := gostr "transit/decrypt/" ++ encryptionKey
        match c.vaultClient transitPath request with
        | WriteResult.failed err => ⟨obj, [(transitPath, request)], Outcome.returned (some err)⟩
        | WriteResult.nilSecret =>
          ⟨obj, [(transitPath, request)], Outcome.panicked Panic.nilDereference⟩
        | WriteResult.secret Data =>
          match mapIndex Data (gostr "batch_results") with
          | Any.slice _ =>
            match mapIndex Data (gostr "batch_results") with
            | Any.slice results =>
              ⟨Obj.ptr (Target.struct (decryptResults value results).1),
                [(transitPath, request)], (decryptResults value results).2⟩
            | _ =>
              ⟨obj, [(transitPath, request)], Outcome.returned
                (some (GoError.errorsNew "batch_results not found in the response data"))⟩
          | _ => ⟨obj, [(transitPath, request)], Outcome.panicked Panic.typeAssertion⟩

/-! ## Vocabulary of the properties -/

/-- The selection condition in words: the declared type is the built-in
`string` and the tag `encrypted` has the value `true`. -/
def eligible (f : StructField) : Bool :=
  decide (f.Typ = GoType.string) && decide (f.Tag.Get (gostr "encrypted") = gostr "true")

/-- The string payload of a field (empty for a payload of another kind). -/
def Field.text (f : Field) : GoString :=
  match f.value with
  | GoValue.str s => s
  | _ => []

/-- What the Go compiler guarantees of a struct variable: field names are not
empty and pairwise distinct, and each payload has the kind of the declared
type. (Structs with several blank fields `_` are left out.) -/
def Record.WellFormed (value : Record) : Prop :=
  (value.map (fun f => f.desc.Name)).Nodup ∧
    ∀ f ∈ value, f.desc.Name ≠ [] ∧ f.value.Kind = f.desc.Typ.Kind

instance (value : Record) : Decidable value.WellFormed := by
  unfold Record.WellFormed
  infer_instance

/-- The field called `name` exists and `SetString` accepts it: it is exported
and of kind `String`. -/
def Record.settable (value : Record) (name : GoString) : Bool :=
  match value.FieldByName name with
  | some f => decide (f.desc.PkgPath = []) && decide (f.desc.Typ.Kind = Kind.String)
  | none => false

/-- Every selected field of the record is exported. -/
def Record.eligibleExported (value : Record) : Prop :=
  ∀ f ∈ value, eligible f.desc = true → f.desc.PkgPath = []

instance (value : Record) : Decidable value.eligibleExported := by
  unfold Record.eligibleExported
  infer_instance

/-- A write-back: the name of the field and the string to store. -/
abbrev FieldWrite := GoString × GoString

/-- Left-to-right fold of "store the string in the field of that name". -/
def Record.applyWrites (value : Record) (writes : List FieldWrite) : Record :=
  writes.foldl (fun r w => Record.assign w.1 w.2 r) value

/-- Reading of a well-formed entry of an encrypt response: a map with a string
`reference` that is valid base64 and a string `ciphertext`; the result is the
decoded reference with the ciphertext as it stands. -/
def encryptEntry (result : Any) : Option FieldWrite :=
  match result with
  | Any.map m =>
    match mapIndex m (gostr "reference"), mapIndex m (gostr "ciphertext") with
    | Any.str ref, Any.str ciphertext =>
      match DecodeString ref with
      | some name => some (name, ciphertext)
      | none => none
    | _, _ => none
  | _ => none

/-- Reading of a well-formed entry of a decrypt response: a map with a string
`reference` and a string `plaintext` that is valid base64; the result is the
reference as it stands with the decoded plaintext. -/
def decryptEntry (result : Any) : Option FieldWrite :=
  match result with
  | Any.map m =>
    match mapIndex m (gostr "reference"), mapIndex m (gostr "plaintext") with
    | Any.str reference, Any.str plaintext =>
      match DecodeString plaintext with
      | some val => some (reference, val)
      | none => none
    | _, _ => none
  | _ => none

/-- The entries of `batch_results` in a response, empty when there is no such
sequence. -/
def batchResults : WriteResult → List Any
  | WriteResult.secret Data =>
    match mapIndex Data (gostr "batch_results") with
    | Any.slice results => results
    | _ => []
  | _ => []

/-- A client whose remote service gives the same answer to every write. -/
def respond (w : WriteResult) : Client := ⟨fun _ _ => w⟩

/-- The batch item `Encrypt` builds for a field. -/
def encryptItem (f : Field) : BatchItem :=
  [(gostr "plaintext", ItemValue.bytes f.text), (gostr "reference", ItemValue.bytes f.desc.Name)]

/-- The batch item `Decrypt` builds for a field. -/
def decryptItem (f : Field) : BatchItem :=
  [(gostr "ciphertext", ItemValue.str f.text), (gostr "reference", ItemValue.str f.desc.Name)]

/-- The request body `Encrypt` builds for a struct. -/
def encryptRequest (value : Record) : Request :=
  [(gostr "batch_input", (getEncryptedFields (TypeOf value)).map (fun field =>
    ([(gostr "plaintext", ItemValue.bytes (Value.String (value.FieldByName field.Name))),
      (gostr "reference", ItemValue.bytes field.Name)] : BatchItem)))]

/-- The request body `Decrypt` builds for a struct. -/
def decryptRequest (value : Record) : Request :=
  [(gostr "batch_input", (getEncryptedFields (TypeOf value)).map (fun field =>
    ([(gostr "ciphertext", ItemValue.str (Value.String (value.FieldByName field.Name))),
      (gostr "reference", ItemValue.str field.Name)] : BatchItem)))]

/-- The two operations of the client. -/
inductive Op
  | encrypt
  | decrypt
  deriving DecidableEq

/-- The method of an operation. -/
def Op.run : Op → Client → Obj → GoString → Run
  | Op.encrypt => Encrypt
  | Op.decrypt => Decrypt

/-- The loop over `results` of an operation. -/
def Op.loop : Op → Record → List Any → Record × Outcome
  | Op.encrypt => encryptResults
  | Op.decrypt => decryptResults

/-- The reading of a well-formed response entry for an operation. -/
def Op.entry : Op → Any → Option FieldWrite
  | Op.encrypt => encryptEntry
  | Op.decrypt => decryptEntry

/-- The field names a response refers to through well-formed entries: the
decoded references for `Encrypt`, the references as they stand for `Decrypt`. -/
def Op.references (op : Op) (w : WriteResult) : List GoString :=
  ((batchResults w).filterMap op.entry).map Prod.fst

/-- A field after a call compared with the same field before it: the
descriptor is the same, and the payload differs only if the field is exported,
of kind `String` and named in `names`. -/
def Touched (names : List GoString) (f f1 : Field) : Prop :=
  f1.desc = f.desc ∧
    (f1.value ≠ f.value →
      f.desc.Name ∈ names ∧ f.desc.Typ.Kind = Kind.String ∧ f.desc.PkgPath = [])

/-- The remote service behaves as a transit engine for the key, with
decryption function `D`. An encrypt write with items (plaintext, reference)
is answered by one entry per item, in any order: a map whose `reference` is
the base64 encoding of the item's reference and whose `ciphertext` is a
string that `D` maps back to the item's plaintext. A decrypt write with items
(ciphertext, reference) is answered by one entry per item, in any order: a
map whose `reference` is the item's reference as it stands and whose
`plaintext` is the base64 encoding of `D` of the item's ciphertext. Entries
may have further members. (`answers` lists the entries in the order of the
items, `results` is the sequence the service sends.) -/
structure TransitService (c : Client) (encryptionKey : GoString)
    (D : GoString → GoString) : Prop where
  encrypt : ∀ items : List (GoString × GoString),
    ∃ Data results answers,
      c.vaultClient (gostr "transit/encrypt/" ++ encryptionKey)
          [(gostr "batch_input", items.map (fun i =>
            ([(gostr "plaintext", ItemValue.bytes i.1),
              (gostr "reference", ItemValue.bytes i.2)] : BatchItem)))]
        = WriteResult.secret Data
      ∧ mapIndex Data (gostr "batch_results") = Any.slice results
      ∧ List.Forall₂ (fun i e => ∃ m ciphertext, e = Any.map m ∧
          mapIndex m (gostr "reference") = Any.str (EncodeToString i.2) ∧
          mapIndex m (gostr "ciphertext") = Any.str ciphertext ∧
          D ciphertext = i.1) items answers
      ∧ List.Perm answers results
  decrypt : ∀ items : List (GoString × GoString),
    ∃ Data results answers,
      c.vaultClient (gostr "transit/decrypt/" ++ encryptionKey)
          [(gostr "batch_input", items.map (fun i =>
            ([(gostr "ciphertext", ItemValue.str i.1),
              (gostr "reference", ItemValue.str i.2)] : BatchItem)))]
        = WriteResult.secret Data
      ∧ mapIndex Data (gostr "batch_results") = Any.slice results
      ∧ List.Forall₂ (fun i e => ∃ m, e = Any.map m ∧
          mapIndex m (gostr "reference") = Any.str i.2 ∧
          mapIndex m (gostr "plaintext") = Any.str (EncodeToString (D i.1))) items answers
      ∧ List.Perm answers results

/-- The test `ptr.Kind() == reflect.Ptr` on `reflect.ValueOf(obj)`: it holds
for pointers, nil or not, and fails for the nil interface and for values
passed directly. -/
def Obj.isPointer : Obj → Bool
  | Obj.nil => false
  | Obj.direct _ => false
  | Obj.nilPtr => true
  | Obj.ptr _ => true

/-- The member of a response entry that carries the transformed value:
`ciphertext` for `Encrypt`, `plaintext` for `Decrypt`. -/
def Op.member : Op → GoString
  | Op.encrypt => gostr "ciphertext"
  | Op.decrypt => gostr "plaintext"

/-- The remote path an operation writes to. -/
def Op.path : Op → GoString → GoString
  | Op.encrypt, encryptionKey => gostr "transit/encrypt/" ++ encryptionKey
  | Op.decrypt, encryptionKey => gostr "transit/decrypt/" ++ encryptionKey

/-- The request body an operation builds for a struct. -/
def Op.request : Op → Record → Request
  | Op.encrypt => encryptRequest
  | Op.decrypt => decryptRequest

/-- The field names the loop of an operation hands to `SetString`, in order:
the loop runs through the entries, stops at the first entry that is not well
formed, and stops after the first entry whose `SetString` panics. -/
def Op.processed (op : Op) : Record → List Any → List GoString
  | _, [] => []
  | value, e :: rest =>
    match op.entry e with
    | none => []
    | some w =>
      match value.SetString w.1 w.2 with
      | some value1 => w.1 :: Op.processed op value1 rest
      | none => [w.1]

/-- The name resolves, through `FieldByName`, to a selected field. -/
def Record.resolvesEligible (value : Record) (name : GoString) : Bool :=
  match value.FieldByName name with
  | some f => eligible f.desc
  | none => false

/-! ## Concrete scenarios -/

/-- The tag `encrypted:"true"`. -/
def encryptedTag : StructTag := [(gostr "encrypted", gostr "true")]

/-- The struct of the repository test: `Name` and `Address` are selected,
`Age` is tagged but an `int`, `Desc` is an untagged string. -/
def person : Record :=
  [⟨⟨gostr "Name", [], GoType.string, encryptedTag⟩, GoValue.str (gostr "John Doe")⟩,
   ⟨⟨gostr "Address", [], GoType.string, encryptedTag⟩, GoValue.str (gostr "123 Main St")⟩,
   ⟨⟨gostr "Age", [], GoType.int, encryptedTag⟩, GoValue.int 30⟩,
   ⟨⟨gostr "Desc", [], GoType.string, []⟩, GoValue.str (gostr "abc")⟩]

/-- A struct with the single field `token string`, tagged `encrypted:"true"`,
declared in package `main`: the field is selected and unexported. -/
def secretive : Record :=
  [⟨⟨gostr "token", gostr "main", GoType.string, encryptedTag⟩, GoValue.str (gostr "s3cr3t")⟩]

/-- A struct with two selected fields, the exported `Name` and the unexported
`token` of package `main`. -/
def mixed : Record :=
  [⟨⟨gostr "Name", [], GoType.string, encryptedTag⟩, GoValue.str (gostr "John Doe")⟩,
   ⟨⟨gostr "token", gostr "main", GoType.string, encryptedTag⟩, GoValue.str (gostr "s3cr3t")⟩]

/-- A struct without selected fields: an untagged string and a tagged `int`. -/
def plain : Record :=
  [⟨⟨gostr "Desc", [], GoType.string, []⟩, GoValue.str (gostr "abc")⟩,
   ⟨⟨gostr "Age", [], GoType.int, encryptedTag⟩, GoValue.int 30⟩]

/-- The key of the repository test. -/
def testKey : GoString := gostr "my-encryption-key"

/-- A response entry with the given `reference` and one more string member. -/
def entry (reference member text : String) : Any :=
  Any.map [(gostr "reference", Any.str (gostr reference)), (gostr member, Any.str (gostr text))]

/-- The `Data` of a response with the given `batch_results`. -/
def dataOf (results : List Any) : List (GoString × Any) :=
  [(gostr "batch_results", Any.slice results)]

/-- Decryption of the demonstration service: drop the nine bytes of
`vault:v1:` and base64-decode the rest. -/
def demoDecrypt (ciphertext : GoString) : GoString :=
  (DecodeString (ciphertext.drop 9)).getD []

/-- The answer of the demonstration service to one batch item. An encrypt item
gets the ciphertext `vault:v1:` followed by the base64 of the plaintext, a key
version, and the base64 of the reference; a decrypt item gets the base64 of
the decrypted ciphertext and the reference as it stands. -/
def demoAnswer (item : BatchItem) : Any :=
  match item with
  | [(_, ItemValue.bytes plaintext), (_, ItemValue.bytes reference)] =>
    Any.map [(gostr "ciphertext", Any.str (gostr "vault:v1:" ++ EncodeToString plaintext)),
      (gostr "key_version", Any.number 1),
      (gostr "reference", Any.str (EncodeToString reference))]
  | [(_, ItemValue.str ciphertext), (_, ItemValue.str reference)] =>
    Any.map [(gostr "plaintext", Any.str (EncodeToString (demoDecrypt ciphertext))),
      (gostr "reference", Any.str reference)]
  | _ => Any.nil

/-- A demonstration service: it answers every batch item in order. -/
def demoTransit : Client :=
  ⟨fun _ request =>
    match request with
    | [(_, batchInput)] =>
      WriteResult.secret [(gostr "batch_results", Any.slice (batchInput.map demoAnswer))]
    | _ => WriteResult.nilSecret⟩

/-! ### Facts about the base64 model -/

theorem decodeMap_encodeByte (i : Nat) (h : i < 64) : decodeMap (encodeByte i) = some i := by
  interval_cases i <;> decide

theorem encodeByte_not_newline (i : Nat) (h : i < 64) :
    (!(encodeByte i == 10 || encodeByte i == 13)) = true := by
  interval_cases i <;> decide

theorem decodeMap_padChar : decodeMap padChar = none := by decide

theorem quantumBytes_full (a b c : Byte) :
    quantumBytes ((a.val * 65536 + b.val * 256 + c.val) / 262144 % 64)
      ((a.val * 65536 + b.val * 256 + c.val) / 4096 % 64)
      ((a.val * 65536 + b.val * 256 + c.val) / 64 % 64)
      ((a.val * 65536 + b.val * 256 + c.val) % 64) = [a, b, c] := by
  have ha := a.isLt
  have hb := b.isLt
  have hc := c.isLt
  simp only [quantumBytes, Fin.ofNat]
  refine congrArg₂ _ (Fin.ext ?_) (congrArg₂ _ (Fin.ext ?_) (congrArg₂ _ (Fin.ext ?_) rfl))
  all_goals simp only []
  all_goals omega

theorem quantumBytes_two (a b : Byte) :
    (quantumBytes ((a.val * 65536 + b.val * 256) / 262144 % 64)
      ((a.val * 65536 + b.val * 256) / 4096 % 64)
      ((a.val * 65536 + b.val * 256) / 64 % 64) 0).take 2 = [a, b] := by
  have ha := a.isLt
  have hb := b.isLt
  simp only [quantumBytes, Fin.ofNat, List.take_succ_cons, List.take_zero]
  refine congrArg₂ _ (Fin.ext ?_) (congrArg₂ _ (Fin.ext ?_) rfl)
  all_goals simp only []
  all_goals omega

theorem quantumBytes_one (a : Byte) :
    (quantumBytes (a.val * 65536 / 262144 % 64) (a.val * 65536 / 4096 % 64) 0 0).take 1
      = [a] := by
  have ha := a.isLt
  simp only [quantumBytes, Fin.ofNat, List.take_succ_cons, List.take_zero]
  refine congrArg₂ _ (Fin.ext ?_) rfl
  simp only []
  omega

theorem decodeMap_encodeByte_mod (n : Nat) :
    decodeMap (encodeByte (n % 64)) = some (n % 64) :=
  decodeMap_encodeByte _ (Nat.mod_lt _ (by decide))

theorem encodeByte_mod_not_newline (n : Nat) :
    (!(encodeByte (n % 64) == 10 || encodeByte (n % 64) == 13)) = true :=
  encodeByte_not_newline _ (Nat.mod_lt _ (by decide))

theorem padChar_not_newline : (!(padChar == 10 || padChar == 13)) = true := by decide

theorem stripNewlines_EncodeToString : ∀ s : List Byte,
    stripNewlines (EncodeToString s) = EncodeToString s
  | [] => rfl
  | [a] => by
    simp only [EncodeToString, stripNewlines, List.filter_cons, List.filter_nil,
      encodeByte_mod_not_newline, padChar_not_newline, if_true]
  | [a, b] => by
    simp only [EncodeToString, stripNewlines, List.filter_cons, List.filter_nil,
      encodeByte_mod_not_newline, padChar_not_newline, if_true]
  | a :: b :: c :: rest => by
    have ih := stripNewlines_EncodeToString rest
    simp only [stripNewlines] at ih
    simp only [EncodeToString, stripNewlines, List.filter_cons,
      encodeByte_mod_not_newline, ih, if_true]

theorem decodeQuanta_EncodeToString : ∀ s : List Byte,
    decodeQuanta (EncodeToString s) = some s
  | [] => rfl
  | [a] => by
    simp only [EncodeToString, decodeQuanta, decodeMap_encodeByte_mod, decodeMap_padChar,
      and_self, if_true, quantumBytes_one]
  | [a, b] => by
    simp only [EncodeToString, decodeQuanta, decodeMap_encodeByte_mod, decodeMap_padChar,
      and_self, if_true, quantumBytes_two]
  | a :: b :: c :: rest => by
    simp only [EncodeToString, decodeQuanta, decodeMap_encodeByte_mod,
      decodeQuanta_EncodeToString rest, quantumBytes_full]
    rfl

/-- Decoding inverts encoding. -/
theorem DecodeString_EncodeToString (s : List Byte) :
    DecodeString (EncodeToString s) = some s := by
  simp only [DecodeString, stripNewlines_EncodeToString, decodeQuanta_EncodeToString]



/-! ### Facts about field selection -/

theorem getEncryptedFields_loop_eq (acc : List StructField) (st : StructType) :
    getEncryptedFields.loop acc st = acc ++ st.filter eligible := by
  induction st generalizing acc with
  | nil => simp [getEncryptedFields.loop]
  | cons f rest ih =>
    simp only [getEncryptedFields.loop]
    by_cases h : f.Tag.Get (gostr "encrypted") = gostr "true" ∧ f.Typ = GoType.string
    · have he : eligible f = true := by simp [eligible, h.1, h.2]
      rw [if_pos h, ih, List.filter_cons, if_pos he, List.append_assoc]
      rfl
    · have he : ¬ (eligible f = true) := by
        simp only [eligible, Bool.and_eq_true, decide_eq_true_eq]
        exact fun hh => h ⟨hh.2, hh.1⟩
      rw [if_neg h, ih, List.filter_cons, if_neg he]

theorem getEncryptedFields_eq_filter (st : StructType) :
    getEncryptedFields st = st.filter eligible := by
  simp [getEncryptedFields, getEncryptedFields_loop_eq]

theorem getEncryptedFields_TypeOf (value : Record) :
    getEncryptedFields (TypeOf value) = (value.filter (fun f => eligible f.desc)).map Field.desc := by
  rw [getEncryptedFields_eq_filter, TypeOf, List.filter_map]
  rfl

theorem getEncryptedFields_ne_nil (value : Record)
    (h : ∃ f ∈ value, eligible f.desc = true) :
    ¬ ((getEncryptedFields (TypeOf value)).length ≤ 0) := by
  obtain ⟨f, hf, he⟩ := h
  have hm : f.desc ∈ getEncryptedFields (TypeOf value) := by
    rw [getEncryptedFields_eq_filter, List.mem_filter]
    exact ⟨List.mem_map_of_mem _ hf, he⟩
  have := List.length_pos_of_mem hm
  omega

theorem getEncryptedFields_eq_nil (value : Record)
    (h : ∀ f ∈ value, eligible f.desc = false) :
    getEncryptedFields (TypeOf value) = [] := by
  rw [getEncryptedFields_eq_filter, List.filter_eq_nil_iff]
  intro d hd
  obtain ⟨f, hf, rfl⟩ := List.mem_map.1 hd
  simp [h f hf]

/-! ### Facts about field access -/

theorem FieldByName_of_mem (value : Record) (hwf : value.WellFormed) (f : Field)
    (hf : f ∈ value) : value.FieldByName f.desc.Name = some f := by
  obtain ⟨hnd, hall⟩ := hwf
  have hne := (hall f hf).1
  simp only [Record.FieldByName, if_neg hne]
  clear hall hne
  induction value with
  | nil => cases hf
  | cons g rest ih =>
    rw [List.map_cons, List.nodup_cons] at hnd
    rcases List.mem_cons.1 hf with rfl | hmem
    · simp [List.find?_cons]
    · have hgf : g.desc.Name ≠ f.desc.Name := by
        intro heq
        exact hnd.1 (heq ▸ List.mem_map_of_mem (fun f => f.desc.Name) hmem)
      simp only [List.find?_cons, hgf, decide_False]
      exact ih hmem hnd.2

theorem String_of_eligible (value : Record) (hwf : value.WellFormed) (f : Field)
    (hf : f ∈ value) (he : eligible f.desc = true) :
    Value.String (value.FieldByName f.desc.Name) = f.text := by
  rw [FieldByName_of_mem value hwf f hf]
  simp only [eligible, Bool.and_eq_true, decide_eq_true_eq] at he
  simp [Value.String, he.1, GoType.Kind, Field.text]

theorem encrypt_batchInput (value : Record) (hwf : value.WellFormed) :
    (getEncryptedFields (TypeOf value)).map (fun field =>
      ([(gostr "plaintext", ItemValue.bytes (Value.String (value.FieldByName field.Name))),
        (gostr "reference", ItemValue.bytes field.Name)] : BatchItem))
      = (value.filter (fun f => eligible f.desc)).map encryptItem := by
  rw [getEncryptedFields_TypeOf, List.map_map]
  apply List.map_congr_left
  intro f hf
  rw [List.mem_filter] at hf
  simp only [Function.comp, encryptItem, String_of_eligible value hwf f hf.1 hf.2]

theorem decrypt_batchInput (value : Record) (hwf : value.WellFormed) :
    (getEncryptedFields (TypeOf value)).map (fun field =>
      ([(gostr "ciphertext", ItemValue.str (Value.String (value.FieldByName field.Name))),
        (gostr "reference", ItemValue.str field.Name)] : BatchItem))
      = (value.filter (fun f => eligible f.desc)).map decryptItem := by
  rw [getEncryptedFields_TypeOf, List.map_map]
  apply List.map_congr_left
  intro f hf
  rw [List.mem_filter] at hf
  simp only [Function.comp, decryptItem, String_of_eligible value hwf f hf.1 hf.2]

/-! ### Facts about writing a field -/

theorem TypeOf_assign (name x : GoString) (value : Record) :
    TypeOf (Record.assign name x value) = TypeOf value := by
  induction value with
  | nil => rfl
  | cons f rest ih =>
    simp only [TypeOf, List.map_cons] at ih ⊢
    by_cases h : f.desc.Name = name
    · simp [Record.assign, h]
    · simp [Record.assign, h, ih]

theorem FieldByName_assign (name x m : GoString) (value : Record) :
    (Record.assign name x value).FieldByName m
      = if m = name then (value.FieldByName m).map (fun f => { f with value := GoValue.str x })
        else value.FieldByName m := by
  by_cases hm : m = []
  · simp [Record.FieldByName, hm]
  · simp only [Record.FieldByName, if_neg hm]
    induction value with
    | nil => simp [Record.assign]
    | cons f rest ih =>
      by_cases h : f.desc.Name = name
      · by_cases h2 : m = name
        · simp [Record.assign, h, h2, List.find?_cons]
        · have h3 : ¬ (f.desc.Name = m) := fun h4 => h2 (h4.symm.trans h)
          simp only [Record.assign, if_pos h, if_neg h2, List.find?_cons, h3, decide_False]
      · by_cases h2 : f.desc.Name = m
        · have h3 : ¬ (m = name) := fun h4 => h (h2.trans h4)
          simp [Record.assign, h, h2, List.find?_cons, h3]
        · simp only [Record.assign, if_neg h, List.find?_cons, h2, decide_False]
          exact ih

theorem settable_assign (name x m : GoString) (value : Record) :
    (Record.assign name x value).settable m = value.settable m := by
  simp only [Record.settable, FieldByName_assign]
  by_cases h : m = name
  · rw [if_pos h]
    cases value.FieldByName m <;> rfl
  · rw [if_neg h]

theorem SetString_of_settable (value : Record) (name x : GoString)
    (h : value.settable name = true) :
    value.SetString name x = some (Record.assign name x value) := by
  simp only [Record.settable] at h
  simp only [Record.SetString]
  cases hf : value.FieldByName name with
  | none => simp [hf] at h
  | some f =>
    simp only [hf, Bool.and_eq_true, decide_eq_true_eq] at h
    simp [h.1, h.2]

theorem SetString_of_not_settable (value : Record) (name x : GoString)
    (h : value.settable name = false) : value.SetString name x = none := by
  simp only [Record.settable] at h
  simp only [Record.SetString]
  cases hf : value.FieldByName name with
  | none => rfl
  | some f =>
    simp only [hf, Bool.and_eq_false_iff, decide_eq_false_iff_not] at h
    rcases h with h | h
    · simp [h]
    · by_cases hp : f.desc.PkgPath = []
      · simp [hp, h]
      · simp [hp]

theorem settable_applyWrites (value : Record) (writes : List FieldWrite) (m : GoString) :
    (value.applyWrites writes).settable m = value.settable m := by
  induction writes generalizing value with
  | nil => rfl
  | cons w rest ih =>
    simp only [Record.applyWrites, List.foldl_cons] at ih ⊢
    rw [ih, settable_assign]

theorem TypeOf_applyWrites (value : Record) (writes : List FieldWrite) :
    TypeOf (value.applyWrites writes) = TypeOf value := by
  induction writes generalizing value with
  | nil => rfl
  | cons w rest ih =>
    simp only [Record.applyWrites, List.foldl_cons] at ih ⊢
    rw [ih, TypeOf_assign]

theorem FieldByName_applyWrites_other (value : Record) (writes : List FieldWrite)
    (m : GoString) (h : m ∉ writes.map Prod.fst) :
    (value.applyWrites writes).FieldByName m = value.FieldByName m := by
  induction writes generalizing value with
  | nil => rfl
  | cons w rest ih =>
    simp only [List.map_cons, List.mem_cons, not_or] at h
    simp only [Record.applyWrites, List.foldl_cons] at ih ⊢
    rw [ih _ h.2, FieldByName_assign, if_neg h.1]

theorem FieldByName_applyWrites_last (value : Record) (pre post : List FieldWrite)
    (w : FieldWrite) (hs : value.settable w.1 = true) (h : w.1 ∉ post.map Prod.fst) :
    ((value.applyWrites (pre ++ w :: post)).FieldByName w.1).map Field.value
      = some (GoValue.str w.2) := by
  have hsplit : value.applyWrites (pre ++ w :: post)
      = (Record.assign w.1 w.2 (value.applyWrites pre)).applyWrites post := by
    simp [Record.applyWrites, List.foldl_append]
  rw [hsplit, FieldByName_applyWrites_other _ _ _ h, FieldByName_assign, if_pos rfl]
  have hs2 : (value.applyWrites pre).settable w.1 = true := by
    rw [settable_applyWrites]; exact hs
  simp only [Record.settable] at hs2
  cases hf : (value.applyWrites pre).FieldByName w.1 with
  | none => simp [hf] at hs2
  | some f => rfl

/-! ### Facts about the response loops -/

theorem encryptResults_cons_entry (value : Record) (e : Any) (rest : List Any)
    (w : FieldWrite) (hw : encryptEntry e = some w) :
    encryptResults value (e :: rest) =
      match value.SetString w.1 w.2 with
      | some value1 => encryptResults value1 rest
      | none => (value, Outcome.panicked Panic.reflectMisuse) := by
  cases e with
  | map m =>
    simp only [encryptEntry] at hw
    simp only [encryptResults]
    split at hw
    · rename_i ref ciphertext href hct
      cases hd : DecodeString ref with
      | none => simp [hd] at hw
      | some name =>
        simp only [hd, Option.some.injEq] at hw
        subst hw
        simp only [href, hct, hd]
    · cases hw
  | _ => simp [encryptEntry] at hw

theorem decryptResults_cons_entry (value : Record) (e : Any) (rest : List Any)
    (w : FieldWrite) (hw : decryptEntry e = some w) :
    decryptResults value (e :: rest) =
      match value.SetString w.1 w.2 with
      | some value1 => decryptResults value1 rest
      | none => (value, Outcome.panicked Panic.reflectMisuse) := by
  cases e with
  | map m =>
    simp only [decryptEntry] at hw
    simp only [decryptResults]
    split at hw
    · rename_i reference plaintext href hpt
      cases hd : DecodeString plaintext with
      | none => simp [hd] at hw
      | some val =>
        simp only [hd, Option.some.injEq] at hw
        subst hw
        simp only [href, hpt, hd]
    · cases hw
  | _ => simp [decryptEntry] at hw

theorem encryptResults_of_entries (value : Record) (results : List Any)
    (h : ∀ e ∈ results, ∃ w, encryptEntry e = some w ∧ value.settable w.1 = true) :
    encryptResults value results
      = (value.applyWrites (results.filterMap encryptEntry), Outcome.returned none) := by
  induction results generalizing value with
  | nil => rfl
  | cons e rest ih =>
    obtain ⟨w, hw, hs⟩ := h e (List.mem_cons_self _ _)
    rw [encryptResults_cons_entry value e rest w hw, SetString_of_settable value _ _ hs]
    simp only [List.filterMap_cons, hw, Record.applyWrites, List.foldl_cons]
    apply ih
    intro e2 he2
    obtain ⟨w2, hw2, hs2⟩ := h e2 (List.mem_cons_of_mem _ he2)
    exact ⟨w2, hw2, by rw [settable_assign]; exact hs2⟩

theorem decryptResults_of_entries (value : Record) (results : List Any)
    (h : ∀ e ∈ results, ∃ w, decryptEntry e = some w ∧ value.settable w.1 = true) :
    decryptResults value results
      = (value.applyWrites (results.filterMap decryptEntry), Outcome.returned none) := by
  induction results generalizing value with
  | nil => rfl
  | cons e rest ih =>
    obtain ⟨w, hw, hs⟩ := h e (List.mem_cons_self _ _)
    rw [decryptResults_cons_entry value e rest w hw, SetString_of_settable value _ _ hs]
    simp only [List.filterMap_cons, hw, Record.applyWrites, List.foldl_cons]
    apply ih
    intro e2 he2
    obtain ⟨w2, hw2, hs2⟩ := h e2 (List.mem_cons_of_mem _ he2)
    exact ⟨w2, hw2, by rw [settable_assign]; exact hs2⟩

theorem encryptResults_append (value : Record) (good tail : List Any)
    (h : ∀ e ∈ good, ∃ w, encryptEntry e = some w ∧ value.settable w.1 = true) :
    encryptResults value (good ++ tail)
      = encryptResults (value.applyWrites (good.filterMap encryptEntry)) tail := by
  induction good generalizing value with
  | nil => rfl
  | cons e rest ih =>
    obtain ⟨w, hw, hs⟩ := h e (List.mem_cons_self _ _)
    rw [List.cons_append, encryptResults_cons_entry value e _ w hw,
      SetString_of_settable value _ _ hs]
    simp only [List.filterMap_cons, hw, Record.applyWrites, List.foldl_cons]
    apply ih
    intro e2 he2
    obtain ⟨w2, hw2, hs2⟩ := h e2 (List.mem_cons_of_mem _ he2)
    exact ⟨w2, hw2, by rw [settable_assign]; exact hs2⟩

theorem decryptResults_append (value : Record) (good tail : List Any)
    (h : ∀ e ∈ good, ∃ w, decryptEntry e = some w ∧ value.settable w.1 = true) :
    decryptResults value (good ++ tail)
      = decryptResults (value.applyWrites (good.filterMap decryptEntry)) tail := by
  induction good generalizing value with
  | nil => rfl
  | cons e rest ih =>
    obtain ⟨w, hw, hs⟩ := h e (List.mem_cons_self _ _)
    rw [List.cons_append, decryptResults_cons_entry value e _ w hw,
      SetString_of_settable value _ _ hs]
    simp only [List.filterMap_cons, hw, Record.applyWrites, List.foldl_cons]
    apply ih
    intro e2 he2
    obtain ⟨w2, hw2, hs2⟩ := h e2 (List.mem_cons_of_mem _ he2)
    exact ⟨w2, hw2, by rw [settable_assign]; exact hs2⟩

theorem decryptResults_cons_corrupt (value : Record) (m : List (GoString × Any))
    (rest : List Any) (reference plaintext : GoString)
    (href : mapIndex m (gostr "reference") = Any.str reference)
    (hpt : mapIndex m (gostr "plaintext") = Any.str plaintext)
    (hbad : DecodeString plaintext = none) :
    decryptResults value (Any.map m :: rest)
      = (value, Outcome.returned (some GoError.corruptInput)) := by
  simp only [decryptResults, href, hpt, hbad]

/-! ### Unfolding the two methods -/

theorem Encrypt_secret (c : Client) (value : Record) (encryptionKey : GoString)
    (Data : List (GoString × Any)) (results : List Any)
    (hkey : encryptionKey ≠ []) (hsome : ∃ f ∈ value, eligible f.desc = true)
    (hresp : c.vaultClient (gostr "transit/encrypt/" ++ encryptionKey) (encryptRequest value)
      = WriteResult.secret Data)
    (hres : mapIndex Data (gostr "batch_results") = Any.slice results) :
    (Encrypt c (Obj.ptr (Target.struct value)) encryptionKey).obj
        = Obj.ptr (Target.struct (encryptResults value results).1)
      ∧ (Encrypt c (Obj.ptr (Target.struct value)) encryptionKey).outcome
        = (encryptResults value results).2 := by
  have h := getEncryptedFields_ne_nil value hsome
  simp only [encryptRequest] at hresp
  simp only [Encrypt, if_neg hkey, if_neg h, hresp, hres, and_self]

theorem Decrypt_secret (c : Client) (value : Record) (encryptionKey : GoString)
    (Data : List (GoString × Any)) (results : List Any)
    (hkey : encryptionKey ≠ []) (hsome : ∃ f ∈ value, eligible f.desc = true)
    (hresp : c.vaultClient (gostr "transit/decrypt/" ++ encryptionKey) (decryptRequest value)
      = WriteResult.secret Data)
    (hres : mapIndex Data (gostr "batch_results") = Any.slice results) :
    (Decrypt c (Obj.ptr (Target.struct value)) encryptionKey).obj
        = Obj.ptr (Target.struct (decryptResults value results).1)
      ∧ (Decrypt c (Obj.ptr (Target.struct value)) encryptionKey).outcome
        = (decryptResults value results).2 := by
  have h := getEncryptedFields_ne_nil value hsome
  simp only [decryptRequest] at hresp
  simp only [Decrypt, if_neg hkey, if_neg h, hresp, hres, and_self]

theorem settable_of_eligible (value : Record) (hwf : value.WellFormed)
    (hexp : value.eligibleExported) (f : Field) (hf : f ∈ value)
    (he : eligible f.desc = true) : value.settable f.desc.Name = true := by
  have hp := hexp f hf he
  simp only [eligible, Bool.and_eq_true, decide_eq_true_eq] at he
  simp [Record.settable, FieldByName_of_mem value hwf f hf, hp, he.1, GoType.Kind]

theorem no_eligible_frame (c : Client) (value : Record) (encryptionKey : GoString)
    (hkey : encryptionKey ≠ []) (hnone : ∀ f ∈ value, eligible f.desc = false) :
    Encrypt c (Obj.ptr (Target.struct value)) encryptionKey
        = ⟨Obj.ptr (Target.struct value), [], Outcome.returned none⟩
      ∧ Decrypt c (Obj.ptr (Target.struct value)) encryptionKey
        = ⟨Obj.ptr (Target.struct value), [], Outcome.returned none⟩ := by
  have h := getEncryptedFields_eq_nil value hnone
  constructor <;> simp [Encrypt, Decrypt, hkey, h]

theorem decryptEntry_map (m : List (GoString × Any)) (reference plaintext : GoString)
    (href : mapIndex m (gostr "reference") = Any.str reference)
    (hpt : mapIndex m (gostr "plaintext") = Any.str plaintext) :
    decryptEntry (Any.map m)
      = match DecodeString plaintext with
        | some val => some (reference, val)
        | none => none := by
  simp only [decryptEntry, href, hpt]

/-! ### Frame facts -/

theorem Touched_refl (names : List GoString) (value : Record) :
    List.Forall₂ (Touched names) value value :=
  List.forall₂_same.2 (fun _ _ => ⟨rfl, fun h => absurd rfl h⟩)

theorem Touched_step {names : List GoString} {x y z : Field}
    (h : Touched names x y) (h2 : Touched names y z) : Touched names x z := by
  refine ⟨h2.1.trans h.1, fun hne => ?_⟩
  by_cases hxy : y.value = x.value
  · have := h2.2 (fun hzy => hne (hzy.trans hxy))
    rw [h.1] at this
    exact this
  · exact h.2 hxy

theorem Touched_trans (names : List GoString) {a b c : Record}
    (hab : List.Forall₂ (Touched names) a b) (hbc : List.Forall₂ (Touched names) b c) :
    List.Forall₂ (Touched names) a c := by
  induction hab generalizing c with
  | nil => cases hbc; exact List.Forall₂.nil
  | cons h _ ih =>
    cases hbc with
    | cons h2 t2 => exact List.Forall₂.cons (Touched_step h h2) (ih t2)

theorem Touched_mono {names names2 : List GoString} (hsub : ∀ n ∈ names, n ∈ names2)
    {a b : Record} (hab : List.Forall₂ (Touched names) a b) :
    List.Forall₂ (Touched names2) a b :=
  hab.imp (fun _ _ h => ⟨h.1, fun hne => ⟨hsub _ (h.2 hne).1, (h.2 hne).2⟩⟩)

theorem assign_Touched (value : Record) (name x : GoString)
    (hs : value.settable name = true) :
    List.Forall₂ (Touched [name]) value (Record.assign name x value) := by
  have hne : name ≠ [] := by
    intro h
    simp [Record.settable, Record.FieldByName, h] at hs
  simp only [Record.settable, Record.FieldByName, if_neg hne] at hs
  induction value with
  | nil => exact List.Forall₂.nil
  | cons f rest ih =>
    by_cases h : f.desc.Name = name
    · simp only [List.find?_cons, h, decide_True, Bool.and_eq_true, decide_eq_true_eq] at hs
      simp only [Record.assign, if_pos h]
      exact List.Forall₂.cons ⟨rfl, fun _ => ⟨by simp [h], hs.2, hs.1⟩⟩ (Touched_refl _ rest)
    · simp only [List.find?_cons, h, decide_False] at hs
      simp only [Record.assign, if_neg h]
      exact List.Forall₂.cons ⟨rfl, fun hne => absurd rfl hne⟩ (ih hs)

theorem Op.loop_cons_entry (op : Op) (value : Record) (e : Any) (rest : List Any)
    (w : FieldWrite) (hw : op.entry e = some w) :
    op.loop value (e :: rest) =
      match value.SetString w.1 w.2 with
      | some value1 => op.loop value1 rest
      | none => (value, Outcome.panicked Panic.reflectMisuse) := by
  cases op with
  | encrypt => exact encryptResults_cons_entry value e rest w hw
  | decrypt => exact decryptResults_cons_entry value e rest w hw

theorem encryptResults_cons_none (value : Record) (e : Any) (rest : List Any)
    (h : encryptEntry e = none) : (encryptResults value (e :: rest)).1 = value := by
  cases e with
  | map m =>
    simp only [encryptEntry] at h
    simp only [encryptResults]
    split
    · rename_i ref href
      split
      · rfl
      · rename_i reference hd
        split
        · rename_i ciphertext hct
          simp [href, hct, hd] at h
        · rfl
    · rfl
  | _ => rfl

theorem decryptResults_cons_none (value : Record) (e : Any) (rest : List Any)
    (h : decryptEntry e = none) : (decryptResults value (e :: rest)).1 = value := by
  cases e with
  | map m =>
    simp only [decryptEntry] at h
    simp only [decryptResults]
    split
    · rename_i reference href
      split
      · rename_i plaintext hpt
        split
        · rfl
        · rename_i val hd
          simp [href, hpt, hd] at h
      · rfl
    · rfl
  | _ => rfl

theorem Op.loop_cons_none (op : Op) (value : Record) (e : Any) (rest : List Any)
    (h : op.entry e = none) : (op.loop value (e :: rest)).1 = value := by
  cases op with
  | encrypt => exact encryptResults_cons_none value e rest h
  | decrypt => exact decryptResults_cons_none value e rest h

theorem Op.loop_Touched (op : Op) (value : Record) (results : List Any) :
    List.Forall₂ (Touched ((results.filterMap op.entry).map Prod.fst)) value
      (op.loop value results).1 := by
  induction results generalizing value with
  | nil => cases op <;> exact Touched_refl _ value
  | cons e rest ih =>
    cases hw : op.entry e with
    | none =>
      rw [Op.loop_cons_none op value e rest hw]
      exact Touched_refl _ value
    | some w =>
      rw [Op.loop_cons_entry op value e rest w hw]
      cases hs : value.settable w.1 with
      | false =>
        rw [SetString_of_not_settable value _ _ hs]
        exact Touched_refl _ value
      | true =>
        rw [SetString_of_settable value _ _ hs]
        simp only [List.filterMap_cons, hw, List.map_cons]
        refine Touched_trans _
          (Touched_mono (fun n hn => ?_) (assign_Touched value w.1 w.2 hs))
          (Touched_mono (fun n hn => List.mem_cons_of_mem _ hn) (ih _))
        rw [List.mem_singleton] at hn
        exact hn ▸ List.mem_cons_self _ _

theorem Op.run_Touched (op : Op) (c : Client) (value : Record) (encryptionKey : GoString) :
    ∃ value1,
      (op.run c (Obj.ptr (Target.struct value)) encryptionKey).obj
          = Obj.ptr (Target.struct value1)
        ∧ ∀ names : List GoString,
            (∀ call ∈ (op.run c (Obj.ptr (Target.struct value)) encryptionKey).calls,
              ∀ n ∈ op.references (c.vaultClient call.1 call.2), n ∈ names) →
            List.Forall₂ (Touched names) value value1 := by
  cases op with
  | encrypt =>
    simp only [Op.run, Encrypt]
    split
    · exact ⟨value, rfl, fun _ _ => Touched_refl _ value⟩
    · split
      · exact ⟨value, rfl, fun _ _ => Touched_refl _ value⟩
      · split
        · exact ⟨value, rfl, fun _ _ => Touched_refl _ value⟩
        · exact ⟨value, rfl, fun _ _ => Touched_refl _ value⟩
        · rename_i Data hresp
          split
          · rename_i results hres
            refine ⟨_, rfl, fun names hnames => ?_⟩
            refine Touched_mono ?_ (Op.loop_Touched Op.encrypt value results)
            intro n hn
            refine hnames _ (List.mem_singleton.2 rfl) n ?_
            simp only [Op.references, batchResults, hresp, hres]
            exact hn
          · exact ⟨value, rfl, fun _ _ => Touched_refl _ value⟩
  | decrypt =>
    simp only [Op.run, Decrypt]
    split
    · exact ⟨value, rfl, fun _ _ => Touched_refl _ value⟩
    · split
      · exact ⟨value, rfl, fun _ _ => Touched_refl _ value⟩
      · split
        · exact ⟨value, rfl, fun _ _ => Touched_refl _ value⟩
        · exact ⟨value, rfl, fun _ _ => Touched_refl _ value⟩
        · rename_i Data hresp
          split
          · rename_i results hres
            refine ⟨_, rfl, fun names hnames => ?_⟩
            refine Touched_mono ?_ (Op.loop_Touched Op.decrypt value results)
            intro n hn
            refine hnames _ (List.mem_singleton.2 rfl) n ?_
            simp only [Op.references, batchResults, hresp, hres]
            exact hn
          · exact ⟨value, rfl, fun _ _ => Touched_refl _ value⟩

/-! ### Order of the writes -/

theorem assign_comm (value : Record) (n1 x1 n2 x2 : GoString) (h : n1 ≠ n2) :
    Record.assign n2 x2 (Record.assign n1 x1 value)
      = Record.assign n1 x1 (Record.assign n2 x2 value) := by
  induction value with
  | nil => rfl
  | cons f rest ih =>
    by_cases h1 : f.desc.Name = n1
    · have h2 : ¬ (f.desc.Name = n2) := fun h2 => h (h1.symm.trans h2)
      simp [Record.assign, h1, h2, h]
    · by_cases h2 : f.desc.Name = n2
      · simp [Record.assign, h1, h2, Ne.symm h]
      · simp [Record.assign, h1, h2, ih]

theorem applyWrites_perm (value : Record) (writes writes2 : List FieldWrite)
    (hperm : List.Perm writes writes2) (hnd : (writes.map Prod.fst).Nodup) :
    value.applyWrites writes = value.applyWrites writes2 := by
  apply List.Perm.foldl_eq' hperm
  intro x hx y hy z
  by_cases hxy : x = y
  · rw [hxy]
  · have hne : x.1 ≠ y.1 := fun h => hxy (List.inj_on_of_nodup_map hnd hx hy h)
    exact assign_comm z x.1 x.2 y.1 y.2 hne

theorem Op.loop_of_entries (op : Op) (value : Record) (results : List Any)
    (h : ∀ e ∈ results, ∃ w, op.entry e = some w ∧ value.settable w.1 = true) :
    op.loop value results
      = (value.applyWrites (results.filterMap op.entry), Outcome.returned none) := by
  cases op with
  | encrypt => exact encryptResults_of_entries value results h
  | decrypt => exact decryptResults_of_entries value results h

theorem Op.loop_perm (op : Op) (value : Record) (results results2 : List Any)
    (hperm : List.Perm results results2)
    (hentries : ∀ e ∈ results, ∃ w, op.entry e = some w ∧ value.settable w.1 = true)
    (hdistinct : ((results.filterMap op.entry).map Prod.fst).Nodup) :
    op.loop value results = op.loop value results2
      ∧ (op.loop value results).2 = Outcome.returned none := by
  have hentries2 : ∀ e ∈ results2, ∃ w, op.entry e = some w ∧ value.settable w.1 = true :=
    fun e he => hentries e (hperm.symm.subset he)
  rw [Op.loop_of_entries op value results hentries,
    Op.loop_of_entries op value results2 hentries2,
    applyWrites_perm value _ _ (hperm.filterMap op.entry) hdistinct]
  exact ⟨rfl, rfl⟩

/-! ### Facts for the round trip -/

theorem encryptEntry_map (m : List (GoString × Any)) (ref ciphertext : GoString)
    (href : mapIndex m (gostr "reference") = Any.str ref)
    (hct : mapIndex m (gostr "ciphertext") = Any.str ciphertext) :
    encryptEntry (Any.map m)
      = match DecodeString ref with
        | some name => some (name, ciphertext)
        | none => none := by
  simp only [encryptEntry, href, hct]

theorem assign_cons_other (g : Field) (rest : Record) (name x : GoString)
    (h : g.desc.Name ≠ name) :
    Record.assign name x (g :: rest) = g :: Record.assign name x rest := by
  simp only [Record.assign, if_neg h]

theorem applyWrites_cons_other (g : Field) (rest : Record) (writes : List FieldWrite)
    (h : g.desc.Name ∉ writes.map Prod.fst) :
    Record.applyWrites (g :: rest) writes = g :: Record.applyWrites rest writes := by
  induction writes generalizing rest with
  | nil => rfl
  | cons w ws ih =>
    simp only [List.map_cons, List.mem_cons, not_or] at h
    simp only [Record.applyWrites, List.foldl_cons] at ih ⊢
    rw [assign_cons_other g rest w.1 w.2 h.1]
    exact ih _ h.2

theorem names_of_writes {P : Field → GoString → Prop} {fs : List Field}
    {writes : List FieldWrite}
    (h : List.Forall₂ (fun f w => w.1 = f.desc.Name ∧ P f w.2) fs writes) :
    writes.map Prod.fst = fs.map (fun f => f.desc.Name) := by
  induction h with
  | nil => rfl
  | cons hd _ ih => simp only [List.map_cons, ih, hd.1]

theorem applyWrites_selected (P : Field → GoString → Prop) (sel : Field → Bool)
    (value : Record) (writes : List FieldWrite)
    (hnd : (value.map (fun f => f.desc.Name)).Nodup)
    (h : List.Forall₂ (fun f w => w.1 = f.desc.Name ∧ P f w.2) (value.filter sel) writes) :
    List.Forall₂ (fun f f1 => f1.desc = f.desc ∧
        (if sel f = true then ∃ s, f1.value = GoValue.str s ∧ P f s
         else f1.value = f.value)) value (value.applyWrites writes) := by
  induction value generalizing writes with
  | nil =>
    cases h
    exact List.Forall₂.nil
  | cons f rest ih =>
    rw [List.map_cons, List.nodup_cons] at hnd
    have hsub : ∀ ws : List FieldWrite,
        List.Forall₂ (fun f w => w.1 = f.desc.Name ∧ P f w.2) (rest.filter sel) ws →
        f.desc.Name ∉ ws.map Prod.fst := by
      intro ws hws hmem
      rw [names_of_writes hws] at hmem
      obtain ⟨g, hg, hgn⟩ := List.mem_map.1 hmem
      exact hnd.1 (List.mem_map.2 ⟨g, (List.mem_filter.1 hg).1, hgn⟩)
    cases hsel : sel f with
    | true =>
      rw [List.filter_cons, if_pos hsel] at h
      cases h with
      | cons hw hws =>
        rename_i w ws
        have hstep : Record.applyWrites (f :: rest) (w :: ws)
            = Record.applyWrites ({ f with value := GoValue.str w.2 } :: rest) ws := by
          simp only [Record.applyWrites, List.foldl_cons, Record.assign, hw.1, if_true]
        rw [hstep, applyWrites_cons_other { f with value := GoValue.str w.2 } rest ws
          (hsub ws hws)]
        refine List.Forall₂.cons ⟨rfl, ?_⟩ (ih ws hnd.2 hws)
        rw [if_pos hsel]
        exact ⟨w.2, rfl, hw.2⟩
    | false =>
      rw [List.filter_cons, if_neg (by simp [hsel])] at h
      rw [applyWrites_cons_other f rest writes (hsub writes h)]
      refine List.Forall₂.cons ⟨rfl, ?_⟩ (ih writes hnd.2 h)
      rw [if_neg (by simp [hsel])]

theorem entries_of_answers {entryOf : Any → Option FieldWrite}
    {Q : Field → FieldWrite → Prop} {fs : List Field} {results : List Any}
    (h : List.Forall₂ (fun f e => ∃ w, entryOf e = some w ∧ Q f w) fs results) :
    List.Forall₂ Q fs (results.filterMap entryOf)
      ∧ ∀ e ∈ results, ∃ w, entryOf e = some w ∧ ∃ f ∈ fs, Q f w := by
  induction h with
  | nil => exact ⟨List.Forall₂.nil, fun _ he => absurd he (List.not_mem_nil _)⟩
  | cons hd _ ih =>
    obtain ⟨w, hw, hq⟩ := hd
    refine ⟨?_, ?_⟩
    · simp only [List.filterMap_cons, hw]
      exact List.Forall₂.cons hq ih.1
    · intro e he
      rcases List.mem_cons.1 he with rfl | hmem
      · exact ⟨w, hw, _, List.mem_cons_self _ _, hq⟩
      · obtain ⟨w2, hw2, f, hf, hq2⟩ := ih.2 e hmem
        exact ⟨w2, hw2, f, List.mem_cons_of_mem _ hf, hq2⟩

theorem forall2_mem_right {α β : Type} {R : α → β → Prop} {a : List α} {b : List β}
    (h : List.Forall₂ R a b) : ∀ y ∈ b, ∃ x ∈ a, R x y := by
  induction h with
  | nil => exact fun _ hy => absurd hy (List.not_mem_nil _)
  | cons hd _ ih =>
    intro y hy
    rcases List.mem_cons.1 hy with rfl | hmem
    · exact ⟨_, List.mem_cons_self _ _, hd⟩
    · obtain ⟨x, hx, hr⟩ := ih y hmem
      exact ⟨x, List.mem_cons_of_mem _ hx, hr⟩

theorem forall2_mem_left {α β : Type} {R : α → β → Prop} {a : List α} {b : List β}
    (h : List.Forall₂ R a b) : ∀ x ∈ a, ∃ y ∈ b, R x y := by
  induction h with
  | nil => exact fun _ hx => absurd hx (List.not_mem_nil _)
  | cons hd _ ih =>
    intro x hx
    rcases List.mem_cons.1 hx with rfl | hmem
    · exact ⟨_, List.mem_cons_self _ _, hd⟩
    · obtain ⟨y, hy, hr⟩ := ih x hmem
      exact ⟨y, List.mem_cons_of_mem _ hy, hr⟩

theorem forall2_compose_eq {α : Type} {R S : α → α → Prop} {a b c : List α}
    (h1 : List.Forall₂ R a b) (h2 : List.Forall₂ S b c)
    (h : ∀ x ∈ a, ∀ y z, R x y → S y z → z = x) : c = a := by
  induction h1 generalizing c with
  | nil => cases h2; rfl
  | cons hd _ ih =>
    cases h2 with
    | cons hd2 tl2 =>
      rw [h _ (List.mem_cons_self _ _) _ _ hd hd2,
        ih tl2 (fun x hx => h x (List.mem_cons_of_mem _ hx))]

theorem text_of_kind_String (f : Field) (h : f.value.Kind = Kind.String) :
    f.value = GoValue.str f.text := by
  cases f with
  | mk desc value =>
    cases value with
    | str s => rfl
    | bool b => simp [GoValue.Kind] at h
    | int n => simp [GoValue.Kind] at h

theorem demoDecrypt_ciphertext (plaintext : GoString) :
    demoDecrypt (gostr "vault:v1:" ++ EncodeToString plaintext) = plaintext := by
  have hlen : (gostr "vault:v1:").length = 9 := by decide
  simp only [demoDecrypt, List.drop_left' hlen, DecodeString_EncodeToString, Option.getD_some]

theorem demoTransit_service (encryptionKey : GoString) :
    TransitService demoTransit encryptionKey demoDecrypt := by
  constructor
  · intro items
    refine ⟨_, _, _, rfl, rfl, ?_, List.Perm.refl _⟩
    rw [List.map_map, List.forall₂_map_right_iff, List.forall₂_same]
    intro i _
    exact ⟨_, _, rfl, rfl, rfl, demoDecrypt_ciphertext i.1⟩
  · intro items
    refine ⟨_, _, _, rfl, rfl, ?_, List.Perm.refl _⟩
    rw [List.map_map, List.forall₂_map_right_iff, List.forall₂_same]
    intro i _
    exact ⟨_, rfl, rfl, rfl⟩

theorem encryptRequest_items (value : Record) (hwf : value.WellFormed) :
    encryptRequest value
      = [(gostr "batch_input",
          ((value.filter (fun f => eligible f.desc)).map (fun f => (f.text, f.desc.Name))).map
            (fun i => ([(gostr "plaintext", ItemValue.bytes i.1),
              (gostr "reference", ItemValue.bytes i.2)] : BatchItem)))] := by
  rw [encryptRequest, encrypt_batchInput value hwf, List.map_map]
  rfl

theorem decryptRequest_items (value : Record) (hwf : value.WellFormed) :
    decryptRequest value
      = [(gostr "batch_input",
          ((value.filter (fun f => eligible f.desc)).map (fun f => (f.text, f.desc.Name))).map
            (fun i => ([(gostr "ciphertext", ItemValue.str i.1),
              (gostr "reference", ItemValue.str i.2)] : BatchItem)))] := by
  rw [decryptRequest, decrypt_batchInput value hwf, List.map_map]
  rfl

theorem Encrypt_transit (c : Client) (value : Record) (encryptionKey : GoString)
    (D : GoString → GoString) (hkey : encryptionKey ≠ []) (hwf : value.WellFormed)
    (hexp : value.eligibleExported) (hsvc : TransitService c encryptionKey D)
    (hsome : ∃ f ∈ value, eligible f.desc = true) :
    ∃ value1,
      (Encrypt c (Obj.ptr (Target.struct value)) encryptionKey).obj
          = Obj.ptr (Target.struct value1)
        ∧ (Encrypt c (Obj.ptr (Target.struct value)) encryptionKey).outcome
          = Outcome.returned none
        ∧ List.Forall₂ (fun f f1 => f1.desc = f.desc ∧
            (if eligible f.desc = true then ∃ s, f1.value = GoValue.str s ∧ D s = f.text
             else f1.value = f.value)) value value1 := by
  obtain ⟨Data, results, answers, hresp, hres, hF, hperm⟩ := hsvc.encrypt
    ((value.filter (fun f => eligible f.desc)).map (fun f => (f.text, f.desc.Name)))
  rw [← encryptRequest_items value hwf] at hresp
  have h := Encrypt_secret c value encryptionKey Data results hkey hsome hresp hres
  rw [List.forall₂_map_left_iff] at hF
  have hF2 : List.Forall₂ (fun f e => ∃ w, encryptEntry e = some w ∧
      (w.1 = f.desc.Name ∧ D w.2 = f.text)) (value.filter (fun f => eligible f.desc))
      answers := by
    refine hF.imp (fun f e he => ?_)
    obtain ⟨m, ciphertext, rfl, href, hct, hD⟩ := he
    refine ⟨(f.desc.Name, ciphertext), ?_, rfl, hD⟩
    rw [encryptEntry_map m _ ciphertext href hct, DecodeString_EncodeToString]
  obtain ⟨hW, hE⟩ := entries_of_answers hF2
  have hset : ∀ e ∈ answers, ∃ w, encryptEntry e = some w ∧ value.settable w.1 = true := by
    intro e he
    obtain ⟨w, hw, f, hf, hn, _⟩ := hE e he
    rw [List.mem_filter] at hf
    exact ⟨w, hw, hn ▸ settable_of_eligible value hwf hexp f hf.1 hf.2⟩
  have hdistinct : ((answers.filterMap encryptEntry).map Prod.fst).Nodup := by
    rw [names_of_writes (P := fun f s => D s = f.text) hW]
    exact ((List.filter_sublist value).map _).nodup hwf.1
  have hloop := (Op.loop_perm Op.encrypt value answers results hperm hset hdistinct).1
  simp only [Op.loop] at hloop
  rw [← hloop, encryptResults_of_entries value answers hset] at h
  exact ⟨_, h.1, h.2, applyWrites_selected (fun f s => D s = f.text)
    (fun f => eligible f.desc) value _ hwf.1 hW⟩

theorem Decrypt_transit (c : Client) (value : Record) (encryptionKey : GoString)
    (D : GoString → GoString) (hkey : encryptionKey ≠ []) (hwf : value.WellFormed)
    (hexp : value.eligibleExported) (hsvc : TransitService c encryptionKey D)
    (hsome : ∃ f ∈ value, eligible f.desc = true) :
    ∃ value1,
      (Decrypt c (Obj.ptr (Target.struct value)) encryptionKey).obj
          = Obj.ptr (Target.struct value1)
        ∧ (Decrypt c (Obj.ptr (Target.struct value)) encryptionKey).outcome
          = Outcome.returned none
        ∧ List.Forall₂ (fun f f1 => f1.desc = f.desc ∧
            (if eligible f.desc = true then ∃ s, f1.value = GoValue.str s ∧ s = D f.text
             else f1.value = f.value)) value value1 := by
  obtain ⟨Data, results, answers, hresp, hres, hF, hperm⟩ := hsvc.decrypt
    ((value.filter (fun f => eligible f.desc)).map (fun f => (f.text, f.desc.Name)))
  rw [← decryptRequest_items value hwf] at hresp
  have h := Decrypt_secret c value encryptionKey Data results hkey hsome hresp hres
  rw [List.forall₂_map_left_iff] at hF
  have hF2 : List.Forall₂ (fun f e => ∃ w, decryptEntry e = some w ∧
      (w.1 = f.desc.Name ∧ w.2 = D f.text)) (value.filter (fun f => eligible f.desc))
      answers := by
    refine hF.imp (fun f e he => ?_)
    obtain ⟨m, rfl, href, hpt⟩ := he
    refine ⟨(f.desc.Name, D f.text), ?_, rfl, rfl⟩
    rw [decryptEntry_map m _ _ href hpt, DecodeString_EncodeToString]
  obtain ⟨hW, hE⟩ := entries_of_answers hF2
  have hset : ∀ e ∈ answers, ∃ w, decryptEntry e = some w ∧ value.settable w.1 = true := by
    intro e he
    obtain ⟨w, hw, f, hf, hn, _⟩ := hE e he
    rw [List.mem_filter] at hf
    exact ⟨w, hw, hn ▸ settable_of_eligible value hwf hexp f hf.1 hf.2⟩
  have hdistinct : ((answers.filterMap decryptEntry).map Prod.fst).Nodup := by
    rw [names_of_writes (P := fun f s => s = D f.text) hW]
    exact ((List.filter_sublist value).map _).nodup hwf.1
  have hloop := (Op.loop_perm Op.decrypt value answers results hperm hset hdistinct).1
  simp only [Op.loop] at hloop
  rw [← hloop, decryptResults_of_entries value answers hset] at h
  exact ⟨_, h.1, h.2, applyWrites_selected (fun f s => s = D f.text)
    (fun f => eligible f.desc) value _ hwf.1 hW⟩

theorem kind_of_eligible (d : StructField) (h : eligible d = true) :
    d.Typ.Kind = Kind.String := by
  simp only [eligible, Bool.and_eq_true, decide_eq_true_eq] at h
  simp [h.1, GoType.Kind]

theorem names_of_same_desc {R : Field → Field → Prop} {a b : List Field}
    (h : List.Forall₂ (fun f f1 => f1.desc = f.desc ∧ R f f1) a b) :
    b.map (fun f => f.desc.Name) = a.map (fun f => f.desc.Name) := by
  induction h with
  | nil => rfl
  | cons hd _ ih => simp only [List.map_cons, ih, hd.1]

/-! ### Facts shared by both operations -/

theorem Op.run_secret (op : Op) (value : Record) (encryptionKey : GoString)
    (Data : List (GoString × Any)) (results : List Any)
    (hkey : encryptionKey ≠ []) (hsome : ∃ f ∈ value, eligible f.desc = true)
    (hres : mapIndex Data (gostr "batch_results") = Any.slice results) :
    (op.run (respond (WriteResult.secret Data)) (Obj.ptr (Target.struct value))
        encryptionKey).obj = Obj.ptr (Target.struct (op.loop value results).1)
      ∧ (op.run (respond (WriteResult.secret Data)) (Obj.ptr (Target.struct value))
        encryptionKey).outcome = (op.loop value results).2 := by
  cases op with
  | encrypt =>
    exact Encrypt_secret (respond (WriteResult.secret Data)) value encryptionKey Data
      results hkey hsome rfl hres
  | decrypt =>
    exact Decrypt_secret (respond (WriteResult.secret Data)) value encryptionKey Data
      results hkey hsome rfl hres

theorem Op.loop_append (op : Op) (value : Record) (good tail : List Any)
    (h : ∀ e ∈ good, ∃ w, op.entry e = some w ∧ value.settable w.1 = true) :
    op.loop value (good ++ tail)
      = op.loop (value.applyWrites (good.filterMap op.entry)) tail := by
  cases op with
  | encrypt => exact encryptResults_append value good tail h
  | decrypt => exact decryptResults_append value good tail h

theorem Op.run_calls (op : Op) (c : Client) (value : Record) (encryptionKey : GoString)
    (hkey : encryptionKey ≠ []) (hsome : ∃ f ∈ value, eligible f.desc = true) :
    (op.run c (Obj.ptr (Target.struct value)) encryptionKey).calls
      = [(op.path encryptionKey, op.request value)] := by
  have h := getEncryptedFields_ne_nil value hsome
  cases op with
  | encrypt =>
    simp only [Op.run, Op.path, Op.request, encryptRequest, Encrypt, if_neg hkey, if_neg h]
    split
    · rfl
    · rfl
    · split <;> rfl
  | decrypt =>
    simp only [Op.run, Op.path, Op.request, decryptRequest, Decrypt, if_neg hkey, if_neg h]
    split
    · rfl
    · rfl
    · split
      · split <;> rfl
      · rfl

theorem exists_eligible_of_not_noop (value : Record)
    (h : 0 < (getEncryptedFields (TypeOf value)).length) :
    ∃ f ∈ value, eligible f.desc = true := by
  rw [getEncryptedFields_TypeOf, List.length_map] at h
  obtain ⟨f, hf⟩ := List.exists_mem_of_length_pos h
  rw [List.mem_filter] at hf
  exact ⟨f, hf.1, hf.2⟩

/-! ### The loops at an entry that cannot be applied -/

theorem encryptResults_cons_not_map (value : Record) (e : Any) (rest : List Any)
    (h : ∀ m, e ≠ Any.map m) :
    encryptResults value (e :: rest)
      = (value, Outcome.returned (some (GoError.errorsNew "invalid batch result"))) := by
  cases e with
  | map m => exact absurd rfl (h m)
  | _ => rfl

theorem Op.loop_cons_no_reference (op : Op) (value : Record) (m : List (GoString × Any))
    (rest : List Any) (h : ∀ s, mapIndex m (gostr "reference") ≠ Any.str s) :
    op.loop value (Any.map m :: rest) = (value, Outcome.panicked Panic.typeAssertion) := by
  cases op with
  | encrypt =>
    simp only [Op.loop, encryptResults]
  | decrypt =>
    simp only [Op.loop, decryptResults]

theorem Op.loop_cons_no_member (op : Op) (value : Record) (m : List (GoString × Any))
    (rest : List Any) (ref : GoString)
    (href : mapIndex m (gostr "reference") = Any.str ref)
    (hdec : op = Op.encrypt → (DecodeString ref).isSome = true)
    (h : ∀ s, mapIndex m op.member ≠ Any.str s) :
    op.loop value (Any.map m :: rest) = (value, Outcome.panicked Panic.typeAssertion) := by
  cases op with
  | encrypt =>
    have hd := hdec rfl
    cases hds : DecodeString ref with
    | none => simp [hds] at hd
    | some name =>
      simp only [Op.loop, encryptResults, href, hds]
      split
      · rename_i ct hct
        exact absurd hct (h ct)
      · rfl
  | decrypt =>
    simp only [Op.loop, decryptResults, href]
    split
    · rename_i pt hpt
      exact absurd hpt (h pt)
    · rfl

theorem FieldByName_none_of_no_field (value : Record) (name : GoString)
    (h : ∀ f ∈ value, f.desc.Name ≠ name) : value.FieldByName name = none := by
  simp only [Record.FieldByName]
  split
  · rfl
  · rw [List.find?_eq_none]
    intro f hf
    simp [h f hf]

theorem Op.loop_cons_unknown (op : Op) (value : Record) (e : Any) (rest : List Any)
    (w : FieldWrite) (hw : op.entry e = some w) (h : value.settable w.1 = false) :
    op.loop value (e :: rest) = (value, Outcome.panicked Panic.reflectMisuse) := by
  rw [Op.loop_cons_entry op value e rest w hw, SetString_of_not_settable value _ _ h]

theorem Op.run_prefix (op : Op) (value : Record) (encryptionKey : GoString)
    (Data : List (GoString × Any)) (good tail : List Any)
    (hkey : encryptionKey ≠ []) (hsome : ∃ f ∈ value, eligible f.desc = true)
    (hres : mapIndex Data (gostr "batch_results") = Any.slice (good ++ tail))
    (hgood : ∀ e ∈ good, ∃ w, op.entry e = some w ∧ value.settable w.1 = true) :
    (op.run (respond (WriteResult.secret Data)) (Obj.ptr (Target.struct value))
        encryptionKey).obj
        = Obj.ptr (Target.struct
            (op.loop (value.applyWrites (good.filterMap op.entry)) tail).1)
      ∧ (op.run (respond (WriteResult.secret Data)) (Obj.ptr (Target.struct value))
        encryptionKey).outcome
        = (op.loop (value.applyWrites (good.filterMap op.entry)) tail).2 := by
  have h := Op.run_secret op value encryptionKey Data (good ++ tail) hkey hsome hres
  rw [Op.loop_append op value good tail hgood] at h
  exact h

/-! ### Write-back for both operations -/

theorem Op.write_back (op : Op) (value : Record) (encryptionKey : GoString)
    (Data : List (GoString × Any)) (results : List Any)
    (hkey : encryptionKey ≠ []) (hsome : ∃ f ∈ value, eligible f.desc = true)
    (hres : mapIndex Data (gostr "batch_results") = Any.slice results)
    (hset : ∀ e ∈ results, ∃ w, op.entry e = some w ∧ value.settable w.1 = true) :
    (op.run (respond (WriteResult.secret Data)) (Obj.ptr (Target.struct value))
        encryptionKey).outcome = Outcome.returned none
      ∧ (op.run (respond (WriteResult.secret Data)) (Obj.ptr (Target.struct value))
        encryptionKey).obj
          = Obj.ptr (Target.struct (value.applyWrites (results.filterMap op.entry))) := by
  have h := Op.run_secret op value encryptionKey Data results hkey hsome hres
  rw [Op.loop_of_entries op value results hset] at h
  exact ⟨h.2, h.1⟩

theorem Op.last_write (op : Op) (value : Record) (results : List Any)
    (hset : ∀ e ∈ results, ∃ w, op.entry e = some w ∧ value.settable w.1 = true) :
    ∀ pre post w, results.filterMap op.entry = pre ++ w :: post →
      w.1 ∉ post.map Prod.fst →
      ((value.applyWrites (results.filterMap op.entry)).FieldByName w.1).map
        Field.value = some (GoValue.str w.2) := by
  intro pre post w hsplit hnot
  have hmem : w ∈ results.filterMap op.entry := by
    rw [hsplit]
    exact List.mem_append_right _ (List.mem_cons_self _ _)
  obtain ⟨e, he, hew⟩ := List.mem_filterMap.1 hmem
  obtain ⟨w2, hw2, hs⟩ := hset e he
  have hww : w2 = w := Option.some.inj (hw2.symm.trans hew)
  subst hww
  rw [hsplit]
  exact FieldByName_applyWrites_last value pre post w2 hs hnot

theorem encryptResults_cons_corrupt (value : Record) (m : List (GoString × Any))
    (rest : List Any) (ref : GoString)
    (href : mapIndex m (gostr "reference") = Any.str ref)
    (hbad : DecodeString ref = none) :
    encryptResults value (Any.map m :: rest)
      = (value, Outcome.returned (some GoError.corruptInput)) := by
  simp only [encryptResults, href, hbad]

/-! ### Frame facts in terms of the processed entries -/

theorem Op.loop_Touched_processed (op : Op) (value : Record) (results : List Any) :
    List.Forall₂ (Touched (op.processed value results)) value (op.loop value results).1 := by
  induction results generalizing value with
  | nil => cases op <;> exact Touched_refl _ value
  | cons e rest ih =>
    cases hw : op.entry e with
    | none =>
      rw [Op.loop_cons_none op value e rest hw]
      exact Touched_refl _ value
    | some w =>
      rw [Op.loop_cons_entry op value e rest w hw]
      cases hs : value.settable w.1 with
      | false =>
        rw [SetString_of_not_settable value _ _ hs]
        exact Touched_refl _ value
      | true =>
        simp only [Op.processed, hw, SetString_of_settable value _ _ hs]
        refine Touched_trans _
          (Touched_mono (fun n hn => ?_) (assign_Touched value w.1 w.2 hs))
          (Touched_mono (fun n hn => List.mem_cons_of_mem _ hn) (ih _))
        rw [List.mem_singleton] at hn
        exact hn ▸ List.mem_cons_self _ _

theorem Op.run_Touched_processed (op : Op) (c : Client) (value : Record)
    (encryptionKey : GoString) :
    ∃ value1,
      (op.run c (Obj.ptr (Target.struct value)) encryptionKey).obj
          = Obj.ptr (Target.struct value1)
        ∧ ∀ names : List GoString,
            (∀ call ∈ (op.run c (Obj.ptr (Target.struct value)) encryptionKey).calls,
              ∀ n ∈ op.processed value (batchResults (c.vaultClient call.1 call.2)),
                n ∈ names) →
            List.Forall₂ (Touched names) value value1 := by
  cases op with
  | encrypt =>
    simp only [Op.run, Encrypt]
    split
    · exact ⟨value, rfl, fun _ _ => Touched_refl _ value⟩
    · split
      · exact ⟨value, rfl, fun _ _ => Touched_refl _ value⟩
      · split
        · exact ⟨value, rfl, fun _ _ => Touched_refl _ value⟩
        · exact ⟨value, rfl, fun _ _ => Touched_refl _ value⟩
        · rename_i Data hresp
          split
          · rename_i results hres
            refine ⟨_, rfl, fun names hnames => ?_⟩
            refine Touched_mono ?_ (Op.loop_Touched_processed Op.encrypt value results)
            intro n hn
            refine hnames _ (List.mem_singleton.2 rfl) n ?_
            simp only [batchResults, hresp, hres]
            exact hn
          · exact ⟨value, rfl, fun _ _ => Touched_refl _ value⟩
  | decrypt =>
    simp only [Op.run, Decrypt]
    split
    · exact ⟨value, rfl, fun _ _ => Touched_refl _ value⟩
    · split
      · exact ⟨value, rfl, fun _ _ => Touched_refl _ value⟩
      · split
        · exact ⟨value, rfl, fun _ _ => Touched_refl _ value⟩
        · exact ⟨value, rfl, fun _ _ => Touched_refl _ value⟩
        · rename_i Data hresp
          split
          · rename_i results hres
            refine ⟨_, rfl, fun names hnames => ?_⟩
            refine Touched_mono ?_ (Op.loop_Touched_processed Op.decrypt value results)
            intro n hn
            refine hnames _ (List.mem_singleton.2 rfl) n ?_
            simp only [batchResults, hresp, hres]
            exact hn
          · exact ⟨value, rfl, fun _ _ => Touched_refl _ value⟩

theorem forall2_and_mem {α β : Type} {R : α → β → Prop} {a : List α} {b : List β}
    (h : List.Forall₂ R a b) (l : List α) (hsub : ∀ x ∈ a, x ∈ l) :
    List.Forall₂ (fun x y => x ∈ l ∧ R x y) a b := by
  induction h with
  | nil => exact List.Forall₂.nil
  | cons hd _ ih =>
    exact List.Forall₂.cons ⟨hsub _ (List.mem_cons_self _ _), hd⟩
      (ih (fun x hx => hsub x (List.mem_cons_of_mem _ hx)))

theorem TypeOf_of_same_desc {R : Field → Field → Prop} {a b : List Field}
    (h : List.Forall₂ (fun f f1 => f1.desc = f.desc ∧ R f f1) a b) :
    TypeOf b = TypeOf a := by
  induction h with
  | nil => rfl
  | cons hd _ ih =>
    simp only [TypeOf, List.map_cons] at ih ⊢
    rw [ih, hd.1]

theorem Op.run_calls_cases (op : Op) (c : Client) (value : Record)
    (encryptionKey : GoString) :
    (op.run c (Obj.ptr (Target.struct value)) encryptionKey).calls = []
      ∨ (op.run c (Obj.ptr (Target.struct value)) encryptionKey).calls
        = [(op.path encryptionKey, op.request value)] := by
  by_cases hkey : encryptionKey = []
  · left
    cases op <;> simp [Op.run, Encrypt, Decrypt, hkey]
  · by_cases hf : (getEncryptedFields (TypeOf value)).length ≤ 0
    · left
      cases op
      · simp only [Op.run, Encrypt, if_neg hkey, if_pos hf]
      · simp only [Op.run, Decrypt, if_neg hkey, if_pos hf]
    · right
      have hpos : 0 < (getEncryptedFields (TypeOf value)).length := by omega
      exact Op.run_calls op c value encryptionKey hkey
        (exists_eligible_of_not_noop value hpos)

/-! ### Entries that name exported selected fields -/

theorem settable_of_exported (value : Record) (hwf : value.WellFormed) (f : Field)
    (hf : f ∈ value) (he : eligible f.desc = true) (hp : f.desc.PkgPath = []) :
    value.settable f.desc.Name = true := by
  simp only [eligible, Bool.and_eq_true, decide_eq_true_eq] at he
  simp [Record.settable, FieldByName_of_mem value hwf f hf, hp, he.1, GoType.Kind]

theorem Op.settable_of_named (op : Op) (value : Record) (results : List Any)
    (hwf : value.WellFormed)
    (hentries : ∀ e ∈ results, ∃ w, op.entry e = some w ∧
      ∃ f ∈ value, eligible f.desc = true ∧ f.desc.PkgPath = [] ∧ f.desc.Name = w.1) :
    ∀ e ∈ results, ∃ w, op.entry e = some w ∧ value.settable w.1 = true := by
  intro e he
  obtain ⟨w, hw, f, hf, hel, hp, hn⟩ := hentries e he
  exact ⟨w, hw, hn ▸ settable_of_exported value hwf f hf hel hp⟩

theorem length_filterMap_of_entries {entryOf : Any → Option FieldWrite}
    {P : FieldWrite → Prop} (results : List Any)
    (h : ∀ e ∈ results, ∃ w, entryOf e = some w ∧ P w) :
    (results.filterMap entryOf).length = results.length := by
  induction results with
  | nil => rfl
  | cons e rest ih =>
    obtain ⟨w, hw, _⟩ := h e (List.mem_cons_self _ _)
    simp only [List.filterMap_cons, hw, List.length_cons]
    rw [ih (fun e2 he2 => h e2 (List.mem_cons_of_mem _ he2))]

/-! ## Properties of the program -/

/-- C2. For every struct type, `getEncryptedFields` returns exactly the
sub-sequence, in declaration order, of the fields whose declared type is
`string` and whose `encrypted` tag is `true`: it is the filter of the field
list by that condition, a field is in the result iff it is declared and
satisfies both conditions, and no field occurs more often than declared. -/
theorem getEncryptedFields_exact (st : StructType) :
    getEncryptedFields st
        = st.filter (fun f => decide (f.Typ = GoType.string ∧
            f.Tag.Get (gostr "encrypted") = gostr "true"))
      ∧ List.Sublist (getEncryptedFields st) st
      ∧ (∀ f, f ∈ getEncryptedFields st ↔
          f ∈ st ∧ f.Typ = GoType.string ∧ f.Tag.Get (gostr "encrypted") = gostr "true")
      ∧ ∀ f, (getEncryptedFields st).count f ≤ st.count f := by
  have hfun : (fun f : StructField => decide (f.Typ = GoType.string ∧
      f.Tag.Get (gostr "encrypted") = gostr "true")) = eligible := by
    funext f
    simp [eligible, Bool.decide_and]
  refine ⟨?_, ?_, ?_, ?_⟩
  · rw [hfun, getEncryptedFields_eq_filter]
  · rw [getEncryptedFields_eq_filter]
    exact List.filter_sublist st
  · intro f
    rw [getEncryptedFields_eq_filter, List.mem_filter]
    simp [eligible]
  · intro f
    rw [getEncryptedFields_eq_filter]
    exact (List.filter_sublist st).count_le f

/-- C10. With the empty key, `Encrypt` and `Decrypt` return the error
"encryption key is empty" for every argument (nil, a value, a nil pointer, a
pointer to anything), issue no remote write and leave the argument as it
was: the key check comes before every other check. -/
theorem empty_key_rejected (c : Client) (obj : Obj) :
    Encrypt c obj [] = ⟨obj, [], Outcome.returned
        (some (GoError.errorsNew "encryption key is empty"))⟩
      ∧ Decrypt c obj [] = ⟨obj, [], Outcome.returned
        (some (GoError.errorsNew "encryption key is empty"))⟩ := by
  constructor <;> simp [Encrypt, Decrypt]

/-- C9. For a struct without selected fields behind the pointer and a
non-empty key, `Encrypt` and `Decrypt` return the nil error, issue no remote
write and leave every field as it was. -/
theorem no_eligible_noop (c : Client) (value : Record) (encryptionKey : GoString)
    (hkey : encryptionKey ≠ []) (hnone : ∀ f ∈ value, eligible f.desc = false) :
    Encrypt c (Obj.ptr (Target.struct value)) encryptionKey
        = ⟨Obj.ptr (Target.struct value), [], Outcome.returned none⟩
      ∧ Decrypt c (Obj.ptr (Target.struct value)) encryptionKey
        = ⟨Obj.ptr (Target.struct value), [], Outcome.returned none⟩ := by
  have h := getEncryptedFields_eq_nil value hnone
  constructor
  · simp only [Encrypt, if_neg hkey, h, List.length_nil, Nat.le_refl, if_true]
  · simp only [Decrypt, if_neg hkey, h, List.length_nil, Nat.le_refl, if_true]

/-- C9, witness: a struct with an untagged string and a tagged `int`. -/
theorem no_eligible_noop_witness :
    Encrypt demoTransit (Obj.ptr (Target.struct plain)) testKey
        = ⟨Obj.ptr (Target.struct plain), [], Outcome.returned none⟩
      ∧ Decrypt demoTransit (Obj.ptr (Target.struct plain)) testKey
        = ⟨Obj.ptr (Target.struct plain), [], Outcome.returned none⟩ :=
  no_eligible_noop demoTransit plain testKey (by decide) (by decide)

/-- C8. For a struct with at least one selected field and a non-empty key, one
call of `Encrypt` or of `Decrypt` issues exactly one remote write, whatever
the number of selected fields and whatever the service answers. -/
theorem single_call (c : Client) (value : Record) (encryptionKey : GoString)
    (hkey : encryptionKey ≠ []) (hsome : ∃ f ∈ value, eligible f.desc = true) :
    (Encrypt c (Obj.ptr (Target.struct value)) encryptionKey).calls.length = 1
      ∧ (Decrypt c (Obj.ptr (Target.struct value)) encryptionKey).calls.length = 1 := by
  have h := getEncryptedFields_ne_nil value hsome
  constructor
  · simp only [Encrypt, if_neg hkey, if_neg h]
    split
    · rfl
    · rfl
    · split <;> rfl
  · simp only [Decrypt, if_neg hkey, if_neg h]
    split
    · rfl
    · rfl
    · split
      · split <;> rfl
      · rfl

/-- C8, witness: the struct of the repository test, with two selected fields. -/
theorem single_call_witness :
    (Encrypt demoTransit (Obj.ptr (Target.struct person)) testKey).calls.length = 1
      ∧ (Decrypt demoTransit (Obj.ptr (Target.struct person)) testKey).calls.length = 1 :=
  single_call demoTransit person testKey (by decide) (by decide)

/-- C4. For a well-formed struct with at least one selected field and a
non-empty key, `Encrypt` writes once, to `transit/encrypt/` followed by the
key, a body whose `batch_input` has one item per selected field in
declaration order, item i holding the bytes of the value and of the name of
selected field i; `Decrypt` writes to `transit/decrypt/` followed by the key
the items holding the value and the name as strings. Fields that are not
selected contribute no item. -/
theorem request_construction (c : Client) (value : Record) (encryptionKey : GoString)
    (hkey : encryptionKey ≠ []) (hwf : value.WellFormed)
    (hsome : ∃ f ∈ value, eligible f.desc = true) :
    (Encrypt c (Obj.ptr (Target.struct value)) encryptionKey).calls
        = [(gostr "transit/encrypt/" ++ encryptionKey,
            [(gostr "batch_input", (value.filter (fun f => eligible f.desc)).map encryptItem)])]
      ∧ (Decrypt c (Obj.ptr (Target.struct value)) encryptionKey).calls
        = [(gostr "transit/decrypt/" ++ encryptionKey,
            [(gostr "batch_input", (value.filter (fun f => eligible f.desc)).map decryptItem)])] := by
  have h := getEncryptedFields_ne_nil value hsome
  constructor
  · simp only [Encrypt, if_neg hkey, if_neg h, encrypt_batchInput value hwf]
    split
    · rfl
    · rfl
    · split <;> rfl
  · simp only [Decrypt, if_neg hkey, if_neg h, decrypt_batchInput value hwf]
    split
    · rfl
    · rfl
    · split
      · split <;> rfl
      · rfl

/-- C4, witness: the struct of the repository test. -/
theorem request_construction_witness :
    (Encrypt demoTransit (Obj.ptr (Target.struct person)) testKey).calls
        = [(gostr "transit/encrypt/" ++ testKey,
            [(gostr "batch_input", (person.filter (fun f => eligible f.desc)).map encryptItem)])]
      ∧ (Decrypt demoTransit (Obj.ptr (Target.struct person)) testKey).calls
        = [(gostr "transit/decrypt/" ++ testKey,
            [(gostr "batch_input", (person.filter (fun f => eligible f.desc)).map decryptItem)])] :=
  request_construction demoTransit person testKey (by decide) (by decide) (by decide)

/-- C5, refuted as stated. The struct has one selected field, `token`, which
is unexported; the response is well formed and its reference decodes to
`token`; yet `Encrypt` does not return an error value or nil: `SetString`
panics, after the plaintext has been sent, and the field keeps its value. -/
theorem encrypt_write_back_unexported :
    secretive.WellFormed
      ∧ encryptEntry (entry "dG9rZW4=" "ciphertext" "vault:v1:abc")
          = some (gostr "token", gostr "vault:v1:abc")
      ∧ (∃ f ∈ secretive, eligible f.desc = true ∧ f.desc.Name = gostr "token")
      ∧ Encrypt (respond (WriteResult.secret
            (dataOf [entry "dG9rZW4=" "ciphertext" "vault:v1:abc"])))
          (Obj.ptr (Target.struct secretive)) testKey
        = ⟨Obj.ptr (Target.struct secretive),
            [(gostr "transit/encrypt/my-encryption-key",
              [(gostr "batch_input", [[(gostr "plaintext", ItemValue.bytes (gostr "s3cr3t")),
                (gostr "reference", ItemValue.bytes (gostr "token"))]])])],
            Outcome.panicked Panic.reflectMisuse⟩ := by
  refine ⟨by decide, by decide, by decide, by decide⟩

/-- C5, amended. For a well-formed struct, a non-empty key and a response
whose `batch_results` entries are well formed with references that
base64-decode to names of exported selected fields, `Encrypt` returns the nil
error and the struct afterwards is the left-to-right fold over the entries of
"store the ciphertext, as it stands, in the field named by the decoded
reference"; a field named by an entry that no later entry names again holds
exactly that entry's ciphertext. Selected fields that no entry names may be
unexported. -/
theorem encrypt_write_back (value : Record) (encryptionKey : GoString)
    (Data : List (GoString × Any)) (results : List Any)
    (hkey : encryptionKey ≠ []) (hwf : value.WellFormed)
    (hres : mapIndex Data (gostr "batch_results") = Any.slice results)
    (hentries : ∀ e ∈ results, ∃ w, encryptEntry e = some w ∧
      ∃ f ∈ value, eligible f.desc = true ∧ f.desc.PkgPath = [] ∧ f.desc.Name = w.1) :
    (Encrypt (respond (WriteResult.secret Data)) (Obj.ptr (Target.struct value))
        encryptionKey).outcome = Outcome.returned none
      ∧ (Encrypt (respond (WriteResult.secret Data)) (Obj.ptr (Target.struct value))
        encryptionKey).obj
          = Obj.ptr (Target.struct (value.applyWrites (results.filterMap encryptEntry)))
      ∧ ∀ pre post w, results.filterMap encryptEntry = pre ++ w :: post →
          w.1 ∉ post.map Prod.fst →
          ((value.applyWrites (results.filterMap encryptEntry)).FieldByName w.1).map
            Field.value = some (GoValue.str w.2) := by
  have hset : ∀ e ∈ results, ∃ w, encryptEntry e = some w ∧ value.settable w.1 = true :=
    Op.settable_of_named Op.encrypt value results hwf hentries
  have hlast := Op.last_write Op.encrypt value results hset
  by_cases hsome : ∃ f ∈ value, eligible f.desc = true
  · have h := Encrypt_secret (respond (WriteResult.secret Data)) value encryptionKey Data
      results hkey hsome rfl hres
    rw [encryptResults_of_entries value results hset] at h
    exact ⟨h.2, h.1, hlast⟩
  · have hnil : results = [] := by
      cases results with
      | nil => rfl
      | cons e rest =>
        obtain ⟨w, _, f, hf, hel, _⟩ := hentries e (List.mem_cons_self _ _)
        exact absurd ⟨f, hf, hel⟩ hsome
    have hnone : ∀ f ∈ value, eligible f.desc = false := by
      intro f hf
      cases hfe : eligible f.desc with
      | false => rfl
      | true => exact absurd ⟨f, hf, hfe⟩ hsome
    have h := (no_eligible_frame (respond (WriteResult.secret Data)) value encryptionKey
      hkey hnone).1
    subst hnil
    refine ⟨by rw [h], by rw [h]; rfl, hlast⟩

/-- C5, witness: a struct with the exported `Name` and the unexported `token`,
both selected, and a response that names `Name` only. -/
theorem encrypt_write_back_witness :
    (Encrypt (respond (WriteResult.secret
        (dataOf [entry "TmFtZQ==" "ciphertext" "vault:v1:abc"])))
      (Obj.ptr (Target.struct mixed)) testKey).outcome = Outcome.returned none
      ∧ (Encrypt (respond (WriteResult.secret
        (dataOf [entry "TmFtZQ==" "ciphertext" "vault:v1:abc"])))
      (Obj.ptr (Target.struct mixed)) testKey).obj
        = Obj.ptr (Target.struct (mixed.applyWrites
            ([entry "TmFtZQ==" "ciphertext" "vault:v1:abc"].filterMap encryptEntry)))
      ∧ ∀ pre post w,
          [entry "TmFtZQ==" "ciphertext" "vault:v1:abc"].filterMap encryptEntry
            = pre ++ w :: post →
          w.1 ∉ post.map Prod.fst →
          ((mixed.applyWrites
            ([entry "TmFtZQ==" "ciphertext" "vault:v1:abc"].filterMap encryptEntry)).FieldByName
              w.1).map Field.value = some (GoValue.str w.2) :=
  encrypt_write_back mixed testKey
    (dataOf [entry "TmFtZQ==" "ciphertext" "vault:v1:abc"])
    [entry "TmFtZQ==" "ciphertext" "vault:v1:abc"]
    (by decide) (by decide) rfl
    (by
      intro e he
      rw [List.mem_singleton] at he
      subst he
      exact ⟨(gostr "Name", gostr "vault:v1:abc"), by decide, by decide⟩)

/-- C6, refuted as stated. The only selected field of the struct, `token`, is
unexported; the response names it and carries valid base64; yet `Decrypt`
does not return: `SetString` panics and the field keeps its value. -/
theorem decrypt_write_back_unexported :
    secretive.WellFormed
      ∧ decryptEntry (entry "token" "plaintext" "czNjcjN0")
          = some (gostr "token", gostr "s3cr3t")
      ∧ (∃ f ∈ secretive, eligible f.desc = true ∧ f.desc.Name = gostr "token")
      ∧ Decrypt (respond (WriteResult.secret
            (dataOf [entry "token" "plaintext" "czNjcjN0"])))
          (Obj.ptr (Target.struct secretive)) testKey
        = ⟨Obj.ptr (Target.struct secretive),
            [(gostr "transit/decrypt/my-encryption-key",
              [(gostr "batch_input", [[(gostr "ciphertext", ItemValue.str (gostr "s3cr3t")),
                (gostr "reference", ItemValue.str (gostr "token"))]])])],
            Outcome.panicked Panic.reflectMisuse⟩ := by
  refine ⟨by decide, by decide, by decide, by decide⟩

/-- C6, amended. Take a well-formed struct, a non-empty key and a response in
which every `batch_results` entry is a map with a string `reference` naming an
exported selected field and a string `plaintext`. If every `plaintext` is
valid base64, `Decrypt` returns the nil error and the struct afterwards is the
left-to-right fold over the entries of "store the decoded plaintext in the
field named by the reference", so a field named by an entry that no later
entry names again holds the decoding of that entry's plaintext. If some
entry's `plaintext` is not valid base64, `Decrypt` returns the decoding error
at the first such entry, having applied the entries before it only: the
entry's own write is not made. Selected fields that no entry names may be
unexported. -/
theorem decrypt_write_back (value : Record) (encryptionKey : GoString)
    (Data : List (GoString × Any)) (results : List Any)
    (hkey : encryptionKey ≠ []) (hwf : value.WellFormed)
    (hres : mapIndex Data (gostr "batch_results") = Any.slice results)
    (hentries : ∀ e ∈ results, ∃ m reference plaintext, e = Any.map m ∧
      mapIndex m (gostr "reference") = Any.str reference ∧
      mapIndex m (gostr "plaintext") = Any.str plaintext ∧
      ∃ f ∈ value, eligible f.desc = true ∧ f.desc.PkgPath = [] ∧
        f.desc.Name = reference) :
    ((∀ e ∈ results, (decryptEntry e).isSome = true) →
      (Decrypt (respond (WriteResult.secret Data)) (Obj.ptr (Target.struct value))
          encryptionKey).outcome = Outcome.returned none
        ∧ (Decrypt (respond (WriteResult.secret Data)) (Obj.ptr (Target.struct value))
          encryptionKey).obj
            = Obj.ptr (Target.struct (value.applyWrites (results.filterMap decryptEntry)))
        ∧ ∀ pre post w, results.filterMap decryptEntry = pre ++ w :: post →
            w.1 ∉ post.map Prod.fst →
            ((value.applyWrites (results.filterMap decryptEntry)).FieldByName w.1).map
              Field.value = some (GoValue.str w.2))
      ∧ ∀ good bad rest, results = good ++ bad :: rest →
          (∀ e ∈ good, (decryptEntry e).isSome = true) → decryptEntry bad = none →
          (Decrypt (respond (WriteResult.secret Data)) (Obj.ptr (Target.struct value))
              encryptionKey).outcome = Outcome.returned (some GoError.corruptInput)
            ∧ (Decrypt (respond (WriteResult.secret Data)) (Obj.ptr (Target.struct value))
              encryptionKey).obj
                = Obj.ptr (Target.struct (value.applyWrites (good.filterMap decryptEntry))) := by
  have hset : ∀ l : List Any, (∀ e ∈ l, e ∈ results) →
      (∀ e ∈ l, (decryptEntry e).isSome = true) →
      ∀ e ∈ l, ∃ w, decryptEntry e = some w ∧ value.settable w.1 = true := by
    intro l hsub hall e he
    obtain ⟨m, reference, plaintext, rfl, href, hpt, f, hf, hel, hp, hn⟩ :=
      hentries e (hsub e he)
    have hsome := hall _ he
    rw [decryptEntry_map m reference plaintext href hpt] at hsome ⊢
    cases hd : DecodeString plaintext with
    | none => simp [hd] at hsome
    | some val => exact ⟨(reference, val), rfl, hn ▸ settable_of_exported value hwf f hf hel hp⟩
  constructor
  · intro hall
    have hset2 := hset results (fun _ h => h) hall
    have hlast := Op.last_write Op.decrypt value results hset2
    by_cases hsome : ∃ f ∈ value, eligible f.desc = true
    · have h := Decrypt_secret (respond (WriteResult.secret Data)) value encryptionKey Data
        results hkey hsome rfl hres
      rw [decryptResults_of_entries value results hset2] at h
      exact ⟨h.2, h.1, hlast⟩
    · have hnil : results = [] := by
        cases results with
        | nil => rfl
        | cons e rest =>
          obtain ⟨_, _, _, _, _, _, f, hf, hel, _⟩ := hentries e (List.mem_cons_self _ _)
          exact absurd ⟨f, hf, hel⟩ hsome
      have hnone : ∀ f ∈ value, eligible f.desc = false := by
        intro f hf
        cases hfe : eligible f.desc with
        | false => rfl
        | true => exact absurd ⟨f, hf, hfe⟩ hsome
      have h := (no_eligible_frame (respond (WriteResult.secret Data)) value encryptionKey
        hkey hnone).2
      subst hnil
      refine ⟨by rw [h], by rw [h]; rfl, hlast⟩
  · intro good bad rest hsplit hgood hbad
    have hbadmem : bad ∈ results := by
      rw [hsplit]
      exact List.mem_append_right _ (List.mem_cons_self _ _)
    obtain ⟨m, reference, plaintext, rfl, href, hpt, f, hf, hel, _⟩ := hentries bad hbadmem
    have hsome : ∃ f ∈ value, eligible f.desc = true := ⟨f, hf, hel⟩
    have hd : DecodeString plaintext = none := by
      rw [decryptEntry_map m reference plaintext href hpt] at hbad
      cases hd : DecodeString plaintext with
      | none => rfl
      | some val => simp [hd] at hbad
    have hsetg := hset good
      (fun e he => by rw [hsplit]; exact List.mem_append_left _ he) hgood
    have h := Decrypt_secret (respond (WriteResult.secret Data)) value encryptionKey Data
      results hkey hsome rfl hres
    rw [hsplit, decryptResults_append value good _ hsetg,
      decryptResults_cons_corrupt _ m rest reference plaintext href hpt hd] at h
    exact ⟨h.2, h.1⟩

/-- C6, witness. First the struct with the exported `Name` and the unexported
`token`, and a response naming `Name` with the valid plaintext `SmFuZQ==`:
`Decrypt` returns the nil error and `Name` is written. Then the struct of the
repository test and a response whose entry for `Name` is valid and whose
entry for `Address` carries the plaintext `!`: `Decrypt` returns the decoding
error with `Name` written and `Address` untouched. -/
theorem decrypt_write_back_witness :
    ((Decrypt (respond (WriteResult.secret (dataOf
          [entry "Name" "plaintext" "SmFuZQ=="])))
          (Obj.ptr (Target.struct mixed)) testKey).outcome = Outcome.returned none
        ∧ (Decrypt (respond (WriteResult.secret (dataOf
          [entry "Name" "plaintext" "SmFuZQ=="])))
          (Obj.ptr (Target.struct mixed)) testKey).obj
            = Obj.ptr (Target.struct (mixed.applyWrites
              ([entry "Name" "plaintext" "SmFuZQ=="].filterMap decryptEntry)))
        ∧ ∀ pre post w,
            [entry "Name" "plaintext" "SmFuZQ=="].filterMap decryptEntry = pre ++ w :: post →
            w.1 ∉ post.map Prod.fst →
            ((mixed.applyWrites
              ([entry "Name" "plaintext" "SmFuZQ=="].filterMap decryptEntry)).FieldByName
                w.1).map Field.value = some (GoValue.str w.2))
      ∧ ((Decrypt (respond (WriteResult.secret (dataOf
            [entry "Name" "plaintext" "Sm9obiBEb2U=", entry "Address" "plaintext" "!"])))
            (Obj.ptr (Target.struct person)) testKey).outcome
            = Outcome.returned (some GoError.corruptInput)
          ∧ (Decrypt (respond (WriteResult.secret (dataOf
            [entry "Name" "plaintext" "Sm9obiBEb2U=", entry "Address" "plaintext" "!"])))
            (Obj.ptr (Target.struct person)) testKey).obj
              = Obj.ptr (Target.struct (person.applyWrites
                  ([entry "Name" "plaintext" "Sm9obiBEb2U="].filterMap decryptEntry)))) :=
  ⟨(decrypt_write_back mixed testKey
      (dataOf [entry "Name" "plaintext" "SmFuZQ=="])
      [entry "Name" "plaintext" "SmFuZQ=="]
      (by decide) (by decide) rfl
      (by
        intro e he
        rw [List.mem_singleton] at he
        subst he
        exact ⟨_, gostr "Name", gostr "SmFuZQ==", rfl, rfl, rfl, by decide⟩)).1
      (by decide),
    (decrypt_write_back person testKey
      (dataOf [entry "Name" "plaintext" "Sm9obiBEb2U=", entry "Address" "plaintext" "!"])
      [entry "Name" "plaintext" "Sm9obiBEb2U=", entry "Address" "plaintext" "!"]
      (by decide) (by decide) rfl
      (by
        intro e he
        simp only [List.mem_cons, List.mem_singleton, List.not_mem_nil, or_false] at he
        rcases he with rfl | rfl
        · exact ⟨_, gostr "Name", gostr "Sm9obiBEb2U=", rfl, rfl, rfl, by decide⟩
        · exact ⟨_, gostr "Address", gostr "!", rfl, rfl, rfl, by decide⟩)).2
      [entry "Name" "plaintext" "Sm9obiBEb2U="] (entry "Address" "plaintext" "!") []
      rfl (by decide) (by decide)⟩

/-- C3, refuted as stated. `Desc` of the test struct is an untagged string, so
it is not selected; the service answers the encrypt request with one
well-formed entry whose reference is the base64 of `Desc`; `Encrypt` returns
the nil error and `Desc` holds the ciphertext instead of `abc`. -/
theorem selectivity_refuted :
    (⟨⟨gostr "Desc", [], GoType.string, []⟩, GoValue.str (gostr "abc")⟩ : Field) ∈ person
      ∧ (⟨gostr "Desc", [], GoType.string, []⟩ : StructField)
          ∉ getEncryptedFields (TypeOf person)
      ∧ Encrypt (respond (WriteResult.secret
            (dataOf [entry "RGVzYw==" "ciphertext" "vault:v1:zzz"])))
          (Obj.ptr (Target.struct person)) testKey
        = ⟨Obj.ptr (Target.struct
            [⟨⟨gostr "Name", [], GoType.string, encryptedTag⟩, GoValue.str (gostr "John Doe")⟩,
             ⟨⟨gostr "Address", [], GoType.string, encryptedTag⟩,
               GoValue.str (gostr "123 Main St")⟩,
             ⟨⟨gostr "Age", [], GoType.int, encryptedTag⟩, GoValue.int 30⟩,
             ⟨⟨gostr "Desc", [], GoType.string, []⟩, GoValue.str (gostr "vault:v1:zzz")⟩]),
            [(gostr "transit/encrypt/my-encryption-key",
              [(gostr "batch_input",
                [[(gostr "plaintext", ItemValue.bytes (gostr "John Doe")),
                  (gostr "reference", ItemValue.bytes (gostr "Name"))],
                 [(gostr "plaintext", ItemValue.bytes (gostr "123 Main St")),
                  (gostr "reference", ItemValue.bytes (gostr "Address"))]])])],
            Outcome.returned none⟩ := by
  refine ⟨by decide, by decide, by decide⟩

/-- C3, amended. For every struct behind the pointer, every key and every
behaviour of the remote service, `Encrypt` and `Decrypt` leave the field
descriptors as they were, and a field keeps its value whenever its kind is
not `String`, or it is unexported, or no well-formed entry of the response to
the issued write refers to its name (after base64 decoding for `Encrypt`, as
it stands for `Decrypt`). In particular a field that is not selected keeps
its value unless the response names it. -/
theorem frame_unreferenced (op : Op) (c : Client) (value : Record)
    (encryptionKey : GoString) :
    ∃ value1,
      (op.run c (Obj.ptr (Target.struct value)) encryptionKey).obj
          = Obj.ptr (Target.struct value1)
        ∧ List.Forall₂ (fun f f1 => f1.desc = f.desc ∧
            ((f.desc.Typ.Kind ≠ Kind.String ∨ f.desc.PkgPath ≠ [] ∨
                ∀ call ∈ (op.run c (Obj.ptr (Target.struct value)) encryptionKey).calls,
                  f.desc.Name ∉ op.references (c.vaultClient call.1 call.2)) →
              f1.value = f.value)) value value1 := by
  obtain ⟨value1, hobj, hframe⟩ := Op.run_Touched op c value encryptionKey
  refine ⟨value1, hobj, ?_⟩
  have h := hframe
    ((op.run c (Obj.ptr (Target.struct value)) encryptionKey).calls.flatMap
      (fun call => op.references (c.vaultClient call.1 call.2)))
    (fun call hcall n hn => List.mem_flatMap.2 ⟨call, hcall, hn⟩)
  refine h.imp (fun f f1 ht => ⟨ht.1, fun hcond => ?_⟩)
  by_contra hne
  obtain ⟨hmem, hkind, hpkg⟩ := ht.2 hne
  obtain ⟨call, hcall, hn⟩ := List.mem_flatMap.1 hmem
  rcases hcond with h1 | h2 | h3
  · exact h1 hkind
  · exact h2 hpkg
  · exact h3 call hcall hn

/-- C7, refuted as stated. The two entries carry distinct references,
`TmFtZQ==` and `TmFtZR==`, each a well-formed entry; both references decode to
`Name`. `Encrypt` returns the nil error for the response and for its
permutation, and leaves `Name` with the ciphertext of whichever entry came
last: the final states differ. -/
theorem permutation_refuted :
    gostr "TmFtZQ==" ≠ gostr "TmFtZR=="
      ∧ List.Perm
          [entry "TmFtZQ==" "ciphertext" "vault:v1:A", entry "TmFtZR==" "ciphertext" "vault:v1:B"]
          [entry "TmFtZR==" "ciphertext" "vault:v1:B", entry "TmFtZQ==" "ciphertext" "vault:v1:A"]
      ∧ (Encrypt (respond (WriteResult.secret (dataOf
            [entry "TmFtZQ==" "ciphertext" "vault:v1:A",
             entry "TmFtZR==" "ciphertext" "vault:v1:B"])))
          (Obj.ptr (Target.struct person)) testKey).outcome = Outcome.returned none
      ∧ (Encrypt (respond (WriteResult.secret (dataOf
            [entry "TmFtZR==" "ciphertext" "vault:v1:B",
             entry "TmFtZQ==" "ciphertext" "vault:v1:A"])))
          (Obj.ptr (Target.struct person)) testKey).outcome = Outcome.returned none
      ∧ (Encrypt (respond (WriteResult.secret (dataOf
            [entry "TmFtZQ==" "ciphertext" "vault:v1:A",
             entry "TmFtZR==" "ciphertext" "vault:v1:B"])))
          (Obj.ptr (Target.struct person)) testKey).obj
        = Obj.ptr (Target.struct (Record.assign (gostr "Name") (gostr "vault:v1:B") person))
      ∧ (Encrypt (respond (WriteResult.secret (dataOf
            [entry "TmFtZR==" "ciphertext" "vault:v1:B",
             entry "TmFtZQ==" "ciphertext" "vault:v1:A"])))
          (Obj.ptr (Target.struct person)) testKey).obj
        = Obj.ptr (Target.struct (Record.assign (gostr "Name") (gostr "vault:v1:A") person))
      ∧ Record.assign (gostr "Name") (gostr "vault:v1:B") person
        ≠ Record.assign (gostr "Name") (gostr "vault:v1:A") person := by
  refine ⟨by decide, List.Perm.swap _ _ _, by decide, by decide, by decide, by decide,
    by decide⟩

/-- C7, amended. Take a response in which every `batch_results` entry is well
formed (with valid base64 where the operation decodes) and refers to an
exported field of kind `String` of the struct, the field names referred to
(the decoded references for `Encrypt`, the references for `Decrypt`) being
pairwise distinct. Replacing `batch_results` by any permutation of itself
makes `Encrypt`, and likewise `Decrypt`, end in the same way, issue the same
write and leave the struct in the same final state; once the response is
read, the call returns the nil error. -/
theorem permutation_invariance (op : Op) (value : Record) (encryptionKey : GoString)
    (Data Data2 : List (GoString × Any)) (results results2 : List Any)
    (hres : mapIndex Data (gostr "batch_results") = Any.slice results)
    (hres2 : mapIndex Data2 (gostr "batch_results") = Any.slice results2)
    (hperm : List.Perm results results2)
    (hentries : ∀ e ∈ results, ∃ w, op.entry e = some w ∧ value.settable w.1 = true)
    (hdistinct : ((results.filterMap op.entry).map Prod.fst).Nodup) :
    op.run (respond (WriteResult.secret Data)) (Obj.ptr (Target.struct value)) encryptionKey
        = op.run (respond (WriteResult.secret Data2)) (Obj.ptr (Target.struct value))
            encryptionKey
      ∧ (op.run (respond (WriteResult.secret Data)) (Obj.ptr (Target.struct value))
            encryptionKey).outcome
          = (if encryptionKey = [] then
              Outcome.returned (some (GoError.errorsNew "encryption key is empty"))
            else Outcome.returned none) := by
  obtain ⟨hloop, hok⟩ := Op.loop_perm op value results results2 hperm hentries hdistinct
  cases op with
  | encrypt =>
    simp only [Op.loop] at hloop hok
    simp only [Op.run, Encrypt, respond, hres, hres2, hloop]
    refine ⟨trivial, ?_⟩
    by_cases hkey : encryptionKey = []
    · simp only [if_pos hkey]
    · simp only [if_neg hkey]
      split
      · rfl
      · rw [← hloop]; exact hok
  | decrypt =>
    simp only [Op.loop] at hloop hok
    simp only [Op.run, Decrypt, respond, hres, hres2, hloop]
    refine ⟨trivial, ?_⟩
    by_cases hkey : encryptionKey = []
    · simp only [if_pos hkey]
    · simp only [if_neg hkey]
      split
      · rfl
      · rw [← hloop]; exact hok

/-- C7, witness: the two entries for `Name` and `Address` of the test struct
in both orders. -/
theorem permutation_invariance_witness :
    Op.encrypt.run (respond (WriteResult.secret (dataOf
          [entry "TmFtZQ==" "ciphertext" "vault:v1:A",
           entry "QWRkcmVzcw==" "ciphertext" "vault:v1:B"])))
        (Obj.ptr (Target.struct person)) testKey
      = Op.encrypt.run (respond (WriteResult.secret (dataOf
          [entry "QWRkcmVzcw==" "ciphertext" "vault:v1:B",
           entry "TmFtZQ==" "ciphertext" "vault:v1:A"])))
        (Obj.ptr (Target.struct person)) testKey
      ∧ (Op.encrypt.run (respond (WriteResult.secret (dataOf
          [entry "TmFtZQ==" "ciphertext" "vault:v1:A",
           entry "QWRkcmVzcw==" "ciphertext" "vault:v1:B"])))
        (Obj.ptr (Target.struct person)) testKey).outcome
          = (if testKey = [] then
              Outcome.returned (some (GoError.errorsNew "encryption key is empty"))
            else Outcome.returned none) :=
  permutation_invariance Op.encrypt person testKey _ _
    [entry "TmFtZQ==" "ciphertext" "vault:v1:A", entry "QWRkcmVzcw==" "ciphertext" "vault:v1:B"]
    [entry "QWRkcmVzcw==" "ciphertext" "vault:v1:B", entry "TmFtZQ==" "ciphertext" "vault:v1:A"]
    rfl rfl (List.Perm.swap _ _ _)
    (by
      intro e he
      simp only [List.mem_cons, List.mem_singleton, List.not_mem_nil, or_false] at he
      rcases he with rfl | rfl
      · exact ⟨(gostr "Name", gostr "vault:v1:A"), by decide, by decide⟩
      · exact ⟨(gostr "Address", gostr "vault:v1:B"), by decide, by decide⟩)
    (by decide)

/-- C1, refuted as stated. The remote service is a transit model in which
decryption inverts encryption and every item is answered by one well-formed
entry; the key is not empty; the only selected field of the struct, `token`,
is unexported. `Encrypt` does not return: after the write `SetString` panics,
and the field still holds its plaintext. -/
theorem round_trip_unexported :
    TransitService demoTransit testKey demoDecrypt
      ∧ testKey ≠ []
      ∧ secretive.WellFormed
      ∧ Encrypt demoTransit (Obj.ptr (Target.struct secretive)) testKey
        = ⟨Obj.ptr (Target.struct secretive),
            [(gostr "transit/encrypt/my-encryption-key",
              [(gostr "batch_input", [[(gostr "plaintext", ItemValue.bytes (gostr "s3cr3t")),
                (gostr "reference", ItemValue.bytes (gostr "token"))]])])],
            Outcome.panicked Panic.reflectMisuse⟩ :=
  ⟨demoTransit_service testKey, by decide, by decide, by decide⟩

/-- C1, amended. For every well-formed struct whose selected fields are all
exported, every non-empty key and every remote service that is a transit
model for the key (each item answered by one well-formed entry, decryption
inverting encryption), `Encrypt` followed by `Decrypt` with the same key
returns the nil error both times and leaves the struct equal to the original:
every field, selected or not, has its original value. -/
theorem round_trip (c : Client) (value : Record) (encryptionKey : GoString)
    (D : GoString → GoString) (hkey : encryptionKey ≠ []) (hwf : value.WellFormed)
    (hexp : value.eligibleExported) (hsvc : TransitService c encryptionKey D) :
    (Encrypt c (Obj.ptr (Target.struct value)) encryptionKey).outcome = Outcome.returned none
      ∧ (Decrypt c (Encrypt c (Obj.ptr (Target.struct value)) encryptionKey).obj
          encryptionKey).outcome = Outcome.returned none
      ∧ (Decrypt c (Encrypt c (Obj.ptr (Target.struct value)) encryptionKey).obj
          encryptionKey).obj = Obj.ptr (Target.struct value) := by
  by_cases hsome : ∃ f ∈ value, eligible f.desc = true
  · obtain ⟨value1, hobj1, hout1, hF1⟩ :=
      Encrypt_transit c value encryptionKey D hkey hwf hexp hsvc hsome
    have htype : value1.map (fun f => f.desc.Name) = value.map (fun f => f.desc.Name) :=
      names_of_same_desc hF1
    have hwf1 : value1.WellFormed := by
      refine ⟨htype ▸ hwf.1, fun f1 hf1 => ?_⟩
      obtain ⟨f, hf, hd, hv⟩ := forall2_mem_right hF1 f1 hf1
      rw [hd]
      refine ⟨(hwf.2 f hf).1, ?_⟩
      by_cases he : eligible f.desc = true
      · rw [if_pos he] at hv
        obtain ⟨s, hs, _⟩ := hv
        rw [hs, kind_of_eligible f.desc he]
        rfl
      · rw [if_neg he] at hv
        rw [hv]
        exact (hwf.2 f hf).2
    have hexp1 : value1.eligibleExported := by
      intro f1 hf1 he1
      obtain ⟨f, hf, hd, _⟩ := forall2_mem_right hF1 f1 hf1
      rw [hd] at he1 ⊢
      exact hexp f hf he1
    have hsome1 : ∃ f ∈ value1, eligible f.desc = true := by
      obtain ⟨f, hf, he⟩ := hsome
      obtain ⟨f1, hf1, hd, _⟩ := forall2_mem_left hF1 f hf
      exact ⟨f1, hf1, hd ▸ he⟩
    obtain ⟨value2, hobj2, hout2, hF2⟩ :=
      Decrypt_transit c value1 encryptionKey D hkey hwf1 hexp1 hsvc hsome1
    have heq : value2 = value := by
      refine forall2_compose_eq hF1 hF2 (fun f hf f1 f2 h1 h2 => ?_)
      obtain ⟨hd1, hv1⟩ := h1
      obtain ⟨hd2, hv2⟩ := h2
      have hdesc : f2.desc = f.desc := hd2.trans hd1
      have hval : f2.value = f.value := by
        by_cases he : eligible f.desc = true
        · rw [if_pos he] at hv1
          rw [if_pos (hd1 ▸ he)] at hv2
          obtain ⟨s, hs, hD⟩ := hv1
          obtain ⟨s2, hs2, hD2⟩ := hv2
          have htext : f1.text = s := by simp only [Field.text, hs]
          rw [hs2, hD2, htext, hD]
          exact (text_of_kind_String f
            ((hwf.2 f hf).2.trans (kind_of_eligible f.desc he))).symm
        · rw [if_neg he] at hv1
          rw [if_neg (hd1 ▸ he)] at hv2
          exact hv2.trans hv1
      cases f with
      | mk d v =>
        cases f2 with
        | mk d2 v2 =>
          simp only at hdesc hval
          rw [hdesc, hval]
    rw [hobj1, hobj2, hout2, heq]
    exact ⟨hout1, rfl, rfl⟩
  · have hnone : ∀ f ∈ value, eligible f.desc = false := by
      intro f hf
      cases hfe : eligible f.desc with
      | false => rfl
      | true => exact absurd ⟨f, hf, hfe⟩ hsome
    obtain ⟨h1, h2⟩ := no_eligible_frame c value encryptionKey hkey hnone
    rw [h1]
    simp only [h2, and_self]

/-- C1, witness: the scenario of the repository test against the
demonstration service. -/
theorem round_trip_witness :
    (Encrypt demoTransit (Obj.ptr (Target.struct person)) testKey).outcome
        = Outcome.returned none
      ∧ (Decrypt demoTransit (Encrypt demoTransit (Obj.ptr (Target.struct person)) testKey).obj
          testKey).outcome = Outcome.returned none
      ∧ (Decrypt demoTransit (Encrypt demoTransit (Obj.ptr (Target.struct person)) testKey).obj
          testKey).obj = Obj.ptr (Target.struct person) :=
  round_trip demoTransit person testKey demoDecrypt (by decide) (by decide) (by decide)
    (demoTransit_service testKey)

/-- C11. For a non-empty key and an argument that is not a pointer (the nil
interface, or a struct or another value passed directly), `Encrypt` and
`Decrypt` return the error "obj must be a pointer", issue no remote write and
leave the argument as it was. -/
theorem non_pointer_rejected (c : Client) (obj : Obj) (encryptionKey : GoString)
    (hkey : encryptionKey ≠ []) (hobj : obj.isPointer = false) :
    Encrypt c obj encryptionKey
        = ⟨obj, [], Outcome.returned (some (GoError.errorsNew "obj must be a pointer"))⟩
      ∧ Decrypt c obj encryptionKey
        = ⟨obj, [], Outcome.returned (some (GoError.errorsNew "obj must be a pointer"))⟩ := by
  cases obj with
  | nil => simp only [Encrypt, Decrypt, if_neg hkey, and_self]
  | direct t => simp only [Encrypt, Decrypt, if_neg hkey, and_self]
  | nilPtr => simp [Obj.isPointer] at hobj
  | ptr t => simp [Obj.isPointer] at hobj

/-- C11, witness: the struct of the repository test passed by value. -/
theorem non_pointer_rejected_witness :
    Encrypt demoTransit (Obj.direct (Target.struct person)) testKey
        = ⟨Obj.direct (Target.struct person), [],
            Outcome.returned (some (GoError.errorsNew "obj must be a pointer"))⟩
      ∧ Decrypt demoTransit (Obj.direct (Target.struct person)) testKey
        = ⟨Obj.direct (Target.struct person), [],
            Outcome.returned (some (GoError.errorsNew "obj must be a pointer"))⟩ :=
  non_pointer_rejected demoTransit (Obj.direct (Target.struct person)) testKey
    (by decide) (by decide)

/-- C12, the code at the failing input. The service answers with a secret
whose `Data` has no `batch_results` (first two facts) or has one that is a
string (last two). `Encrypt` returns the error "batch_results not found in
the response data" with the struct unchanged. `Decrypt` does not return: its
first, unchecked type assertion on `res.Data["batch_results"]` panics before
the checked assertion that would produce the same error. -/
theorem missing_batch_results_decrypt_panics :
    Encrypt (respond (WriteResult.secret [])) (Obj.ptr (Target.struct person)) testKey
        = ⟨Obj.ptr (Target.struct person),
            [(gostr "transit/encrypt/my-encryption-key", encryptRequest person)],
            Outcome.returned
              (some (GoError.errorsNew "batch_results not found in the response data"))⟩
      ∧ Decrypt (respond (WriteResult.secret [])) (Obj.ptr (Target.struct person)) testKey
        = ⟨Obj.ptr (Target.struct person),
            [(gostr "transit/decrypt/my-encryption-key", decryptRequest person)],
            Outcome.panicked Panic.typeAssertion⟩
      ∧ Encrypt (respond (WriteResult.secret
            [(gostr "batch_results", Any.str (gostr "none"))]))
          (Obj.ptr (Target.struct person)) testKey
        = ⟨Obj.ptr (Target.struct person),
            [(gostr "transit/encrypt/my-encryption-key", encryptRequest person)],
            Outcome.returned
              (some (GoError.errorsNew "batch_results not found in the response data"))⟩
      ∧ Decrypt (respond (WriteResult.secret
            [(gostr "batch_results", Any.str (gostr "none"))]))
          (Obj.ptr (Target.struct person)) testKey
        = ⟨Obj.ptr (Target.struct person),
            [(gostr "transit/decrypt/my-encryption-key", decryptRequest person)],
            Outcome.panicked Panic.typeAssertion⟩ := by
  refine ⟨by decide, by decide, by decide, by decide⟩

/-- C15. For a struct with at least one selected field and a non-empty key,
when the remote write fails with the error `e`, `Encrypt` and `Decrypt` return
exactly `e`, having issued that one write and no other, and leave the struct
as it was. -/
theorem transport_error_verbatim (op : Op) (value : Record) (encryptionKey : GoString)
    (e : GoError) (hkey : encryptionKey ≠ [])
    (hsome : ∃ f ∈ value, eligible f.desc = true) :
    op.run (respond (WriteResult.failed e)) (Obj.ptr (Target.struct value)) encryptionKey
      = ⟨Obj.ptr (Target.struct value), [(op.path encryptionKey, op.request value)],
          Outcome.returned (some e)⟩ := by
  have h := getEncryptedFields_ne_nil value hsome
  cases op with
  | encrypt =>
    simp only [Op.run, Op.path, Op.request, encryptRequest, Encrypt, if_neg hkey, if_neg h,
      respond]
  | decrypt =>
    simp only [Op.run, Op.path, Op.request, decryptRequest, Decrypt, if_neg hkey, if_neg h,
      respond]

/-- C15, witness: `Decrypt` of the test struct against a service that rejects
the write. -/
theorem transport_error_verbatim_witness :
    Op.decrypt.run (respond (WriteResult.failed (GoError.remote "permission denied")))
        (Obj.ptr (Target.struct person)) testKey
      = ⟨Obj.ptr (Target.struct person),
          [(Op.decrypt.path testKey, Op.decrypt.request person)],
          Outcome.returned (some (GoError.remote "permission denied"))⟩ :=
  transport_error_verbatim Op.decrypt person testKey (GoError.remote "permission denied")
    (by decide) (by decide)

/-- C13, refuted as stated. The response has one entry, a map with a string
`ciphertext` and no `reference`. `Encrypt` does not return an error: the
unchecked type assertion on `batchResult["reference"]` panics. -/
theorem malformed_entry_panics :
    Encrypt (respond (WriteResult.secret (dataOf
          [Any.map [(gostr "ciphertext", Any.str (gostr "vault:v1:abc"))]])))
        (Obj.ptr (Target.struct person)) testKey
      = ⟨Obj.ptr (Target.struct person),
          [(gostr "transit/encrypt/my-encryption-key", encryptRequest person)],
          Outcome.panicked Panic.typeAssertion⟩ := by
  decide

/-- C13, amended. Take a struct with at least one selected field, a non-empty
key and a response whose `batch_results` starts with entries that are all
applied (well formed, naming an exported field of kind `String`) followed by
an entry `bad`. If `bad` is not a map, `Encrypt` returns the error "invalid
batch result". If `bad` is a map without a string `reference`, or a map with a
string `reference` (valid base64 for `Encrypt`) but without a string
`ciphertext` for `Encrypt`, `plaintext` for `Decrypt`, then `Encrypt` and
`Decrypt` do not return: the type assertion panics. In each case the struct
holds the writes of the entries before `bad` and nothing else. -/
theorem malformed_entry (op : Op) (value : Record) (encryptionKey : GoString)
    (Data : List (GoString × Any)) (good : List Any) (bad : Any) (rest : List Any)
    (hkey : encryptionKey ≠ []) (hsome : ∃ f ∈ value, eligible f.desc = true)
    (hres : mapIndex Data (gostr "batch_results") = Any.slice (good ++ bad :: rest))
    (hgood : ∀ e ∈ good, ∃ w, op.entry e = some w ∧ value.settable w.1 = true) :
    ((∀ m, bad ≠ Any.map m) → op = Op.encrypt →
        op.run (respond (WriteResult.secret Data)) (Obj.ptr (Target.struct value))
            encryptionKey
          = ⟨Obj.ptr (Target.struct (value.applyWrites (good.filterMap op.entry))),
              [(op.path encryptionKey, op.request value)],
              Outcome.returned (some (GoError.errorsNew "invalid batch result"))⟩)
      ∧ (∀ m, bad = Any.map m → (∀ s, mapIndex m (gostr "reference") ≠ Any.str s) →
          op.run (respond (WriteResult.secret Data)) (Obj.ptr (Target.struct value))
              encryptionKey
            = ⟨Obj.ptr (Target.struct (value.applyWrites (good.filterMap op.entry))),
                [(op.path encryptionKey, op.request value)],
                Outcome.panicked Panic.typeAssertion⟩)
      ∧ (∀ m ref, bad = Any.map m → mapIndex m (gostr "reference") = Any.str ref →
          (op = Op.encrypt → (DecodeString ref).isSome = true) →
          (∀ s, mapIndex m op.member ≠ Any.str s) →
          op.run (respond (WriteResult.secret Data)) (Obj.ptr (Target.struct value))
              encryptionKey
            = ⟨Obj.ptr (Target.struct (value.applyWrites (good.filterMap op.entry))),
                [(op.path encryptionKey, op.request value)],
                Outcome.panicked Panic.typeAssertion⟩) := by
  obtain ⟨hobj, hout⟩ := Op.run_prefix op value encryptionKey Data good (bad :: rest)
    hkey hsome hres hgood
  have hcalls := Op.run_calls op (respond (WriteResult.secret Data)) value encryptionKey
    hkey hsome
  have hrun : ∀ r : Run, r.obj = (op.run (respond (WriteResult.secret Data))
      (Obj.ptr (Target.struct value)) encryptionKey).obj →
      r.calls = (op.run (respond (WriteResult.secret Data))
        (Obj.ptr (Target.struct value)) encryptionKey).calls →
      r.outcome = (op.run (respond (WriteResult.secret Data))
        (Obj.ptr (Target.struct value)) encryptionKey).outcome →
      op.run (respond (WriteResult.secret Data)) (Obj.ptr (Target.struct value))
        encryptionKey = r := by
    intro r h1 h2 h3
    cases r
    cases hr : op.run (respond (WriteResult.secret Data)) (Obj.ptr (Target.struct value))
      encryptionKey
    simp only [hr] at h1 h2 h3
    simp only [Run.mk.injEq]
    exact ⟨h1.symm, h2.symm, h3.symm⟩
  refine ⟨?_, ?_, ?_⟩
  · intro hnot hop
    subst hop
    simp only [Op.loop, encryptResults_cons_not_map _ bad rest hnot] at hobj hout
    exact hrun _ hobj.symm hcalls.symm hout.symm
  · intro m hm hnoref
    subst hm
    rw [Op.loop_cons_no_reference op _ m rest hnoref] at hobj hout
    exact hrun _ hobj.symm hcalls.symm hout.symm
  · intro m ref hm href hdec hnomem
    subst hm
    rw [Op.loop_cons_no_member op _ m rest ref href hdec hnomem] at hobj hout
    exact hrun _ hobj.symm hcalls.symm hout.symm

/-- C13, witness: after an entry for `Name`, an entry that is a string and not
a map; `Encrypt` returns "invalid batch result" with `Name` already written. -/
theorem malformed_entry_witness :
    Op.encrypt.run (respond (WriteResult.secret (dataOf
          [entry "TmFtZQ==" "ciphertext" "vault:v1:abc", Any.str (gostr "oops")])))
        (Obj.ptr (Target.struct person)) testKey
      = ⟨Obj.ptr (Target.struct (person.applyWrites
            ([entry "TmFtZQ==" "ciphertext" "vault:v1:abc"].filterMap Op.encrypt.entry))),
          [(Op.encrypt.path testKey, Op.encrypt.request person)],
          Outcome.returned (some (GoError.errorsNew "invalid batch result"))⟩ :=
  (malformed_entry Op.encrypt person testKey
    (dataOf [entry "TmFtZQ==" "ciphertext" "vault:v1:abc", Any.str (gostr "oops")])
    [entry "TmFtZQ==" "ciphertext" "vault:v1:abc"] (Any.str (gostr "oops")) []
    (by decide) (by decide) rfl
    (by
      intro e he
      rw [List.mem_singleton] at he
      subst he
      exact ⟨(gostr "Name", gostr "vault:v1:abc"), by decide, by decide⟩)).1
    (by intro m h; cases h) rfl

/-- C14, refuted as stated. The response has one well-formed entry whose
reference is the base64 of `Nope`, which is not a field of the struct.
`Encrypt` does not return an error: `FieldByName` yields the zero `Value` and
`SetString` panics. -/
theorem unknown_reference_panics :
    encryptEntry (entry "Tm9wZQ==" "ciphertext" "vault:v1:abc")
        = some (gostr "Nope", gostr "vault:v1:abc")
      ∧ person.FieldByName (gostr "Nope") = none
      ∧ Encrypt (respond (WriteResult.secret (dataOf
            [entry "Tm9wZQ==" "ciphertext" "vault:v1:abc"])))
          (Obj.ptr (Target.struct person)) testKey
        = ⟨Obj.ptr (Target.struct person),
            [(gostr "transit/encrypt/my-encryption-key", encryptRequest person)],
            Outcome.panicked Panic.reflectMisuse⟩ := by
  refine ⟨by decide, by decide, by decide⟩

/-- C14, amended. Take a struct with at least one selected field, a non-empty
key and a response whose `batch_results` starts with entries that are all
applied, followed by a well-formed entry whose reference (decoded for
`Encrypt`, as it stands for `Decrypt`) is not the name of any field of the
struct. `Encrypt` and `Decrypt` return no error value: `SetString` panics on
the zero `Value`. The struct holds the writes of the earlier entries and
nothing else; entries after the unknown reference are not applied. -/
theorem unknown_reference (op : Op) (value : Record) (encryptionKey : GoString)
    (Data : List (GoString × Any)) (good : List Any) (bad : Any) (rest : List Any)
    (w : FieldWrite)
    (hkey : encryptionKey ≠ []) (hsome : ∃ f ∈ value, eligible f.desc = true)
    (hres : mapIndex Data (gostr "batch_results") = Any.slice (good ++ bad :: rest))
    (hgood : ∀ e ∈ good, ∃ w, op.entry e = some w ∧ value.settable w.1 = true)
    (hbad : op.entry bad = some w) (hunknown : ∀ f ∈ value, f.desc.Name ≠ w.1) :
    (op.run (respond (WriteResult.secret Data)) (Obj.ptr (Target.struct value))
        encryptionKey).outcome = Outcome.panicked Panic.reflectMisuse
      ∧ (op.run (respond (WriteResult.secret Data)) (Obj.ptr (Target.struct value))
        encryptionKey).obj
          = Obj.ptr (Target.struct (value.applyWrites (good.filterMap op.entry)))
      ∧ (op.run (respond (WriteResult.secret Data)) (Obj.ptr (Target.struct value))
        encryptionKey).calls = [(op.path encryptionKey, op.request value)] := by
  obtain ⟨hobj, hout⟩ := Op.run_prefix op value encryptionKey Data good (bad :: rest)
    hkey hsome hres hgood
  have hns : (value.applyWrites (good.filterMap op.entry)).settable w.1 = false := by
    rw [settable_applyWrites]
    simp only [Record.settable, FieldByName_none_of_no_field value w.1 hunknown]
  rw [Op.loop_cons_unknown op _ bad rest w hbad hns] at hobj hout
  exact ⟨hout, hobj, Op.run_calls op _ value encryptionKey hkey hsome⟩

/-- C14, witness: `Decrypt` of the test struct, an entry for `Name` followed
by an entry for the unknown field `Nope`. -/
theorem unknown_reference_witness :
    (Op.decrypt.run (respond (WriteResult.secret (dataOf
          [entry "Name" "plaintext" "Sm9obiBEb2U=", entry "Nope" "plaintext" "YWJj"])))
        (Obj.ptr (Target.struct person)) testKey).outcome
        = Outcome.panicked Panic.reflectMisuse
      ∧ (Op.decrypt.run (respond (WriteResult.secret (dataOf
          [entry "Name" "plaintext" "Sm9obiBEb2U=", entry "Nope" "plaintext" "YWJj"])))
        (Obj.ptr (Target.struct person)) testKey).obj
          = Obj.ptr (Target.struct (person.applyWrites
              ([entry "Name" "plaintext" "Sm9obiBEb2U="].filterMap Op.decrypt.entry)))
      ∧ (Op.decrypt.run (respond (WriteResult.secret (dataOf
          [entry "Name" "plaintext" "Sm9obiBEb2U=", entry "Nope" "plaintext" "YWJj"])))
        (Obj.ptr (Target.struct person)) testKey).calls
          = [(Op.decrypt.path testKey, Op.decrypt.request person)] :=
  unknown_reference Op.decrypt person testKey
    (dataOf [entry "Name" "plaintext" "Sm9obiBEb2U=", entry "Nope" "plaintext" "YWJj"])
    [entry "Name" "plaintext" "Sm9obiBEb2U="] (entry "Nope" "plaintext" "YWJj") []
    (gostr "Nope", gostr "abc")
    (by decide) (by decide) rfl
    (by
      intro e he
      rw [List.mem_singleton] at he
      subst he
      exact ⟨(gostr "Name", gostr "John Doe"), by decide, by decide⟩)
    (by decide) (by decide)

/-- C16, refuted as stated. The struct has two selected fields, `Name` and the
unexported `token`; `batch_results` has one entry, well formed and naming
`token`. `Encrypt` does not return success: `SetString` panics. -/
theorem short_response_unexported :
    mixed.WellFormed
      ∧ (getEncryptedFields (TypeOf mixed)).length = 2
      ∧ encryptEntry (entry "dG9rZW4=" "ciphertext" "vault:v1:abc")
          = some (gostr "token", gostr "vault:v1:abc")
      ∧ (∃ f ∈ mixed, eligible f.desc = true ∧ f.desc.Name = gostr "token")
      ∧ Encrypt (respond (WriteResult.secret (dataOf
            [entry "dG9rZW4=" "ciphertext" "vault:v1:abc"])))
          (Obj.ptr (Target.struct mixed)) testKey
        = ⟨Obj.ptr (Target.struct mixed),
            [(gostr "transit/encrypt/my-encryption-key", encryptRequest mixed)],
            Outcome.panicked Panic.reflectMisuse⟩ := by
  refine ⟨by decide, by decide, by decide, by decide, by decide⟩

/-- C16, amended. For a well-formed struct, a non-empty key and a response
whose `batch_results` has fewer entries than there are selected fields (the
empty list included), each entry well formed (with valid base64 where the
operation decodes) and naming an exported selected field, `Encrypt` and
`Decrypt` return the nil error; the struct afterwards is the fold of the
entries' writes, a field named by an entry that no later entry names again
holds that entry's value, and every field that no entry names, selected or
not, exported or not, is exactly as before. -/
theorem short_response (op : Op) (value : Record) (encryptionKey : GoString)
    (Data : List (GoString × Any)) (results : List Any)
    (hkey : encryptionKey ≠ []) (hwf : value.WellFormed)
    (hres : mapIndex Data (gostr "batch_results") = Any.slice results)
    (hentries : ∀ e ∈ results, ∃ w, op.entry e = some w ∧
      ∃ f ∈ value, eligible f.desc = true ∧ f.desc.PkgPath = [] ∧ f.desc.Name = w.1)
    (hshort : results.length < (getEncryptedFields (TypeOf value)).length) :
    (op.run (respond (WriteResult.secret Data)) (Obj.ptr (Target.struct value))
        encryptionKey).outcome = Outcome.returned none
      ∧ (op.run (respond (WriteResult.secret Data)) (Obj.ptr (Target.struct value))
        encryptionKey).obj
          = Obj.ptr (Target.struct (value.applyWrites (results.filterMap op.entry)))
      ∧ (∀ pre post w, results.filterMap op.entry = pre ++ w :: post →
          w.1 ∉ post.map Prod.fst →
          ((value.applyWrites (results.filterMap op.entry)).FieldByName w.1).map
            Field.value = some (GoValue.str w.2))
      ∧ ∀ f ∈ value, f.desc.Name ∉ (results.filterMap op.entry).map Prod.fst →
          (value.applyWrites (results.filterMap op.entry)).FieldByName f.desc.Name
            = some f := by
  have hsome := exists_eligible_of_not_noop value (Nat.lt_of_le_of_lt (Nat.zero_le _) hshort)
  have hset := Op.settable_of_named op value results hwf hentries
  obtain ⟨hout, hobj⟩ := Op.write_back op value encryptionKey Data results hkey hsome
    hres hset
  refine ⟨hout, hobj, Op.last_write op value results hset, ?_⟩
  intro f hf hnot
  rw [FieldByName_applyWrites_other _ _ _ hnot, FieldByName_of_mem value hwf f hf]

/-- C16, witness: the struct with the exported `Name` and the unexported
`token`, both selected, and a response with the single entry for `Name`. -/
theorem short_response_witness :
    (Op.encrypt.run (respond (WriteResult.secret (dataOf
          [entry "TmFtZQ==" "ciphertext" "vault:v1:A"])))
        (Obj.ptr (Target.struct mixed)) testKey).outcome = Outcome.returned none
      ∧ (Op.encrypt.run (respond (WriteResult.secret (dataOf
          [entry "TmFtZQ==" "ciphertext" "vault:v1:A"])))
        (Obj.ptr (Target.struct mixed)) testKey).obj
          = Obj.ptr (Target.struct (mixed.applyWrites
              ([entry "TmFtZQ==" "ciphertext" "vault:v1:A"].filterMap Op.encrypt.entry)))
      ∧ (∀ pre post w,
          [entry "TmFtZQ==" "ciphertext" "vault:v1:A"].filterMap Op.encrypt.entry
            = pre ++ w :: post →
          w.1 ∉ post.map Prod.fst →
          ((mixed.applyWrites
            ([entry "TmFtZQ==" "ciphertext" "vault:v1:A"].filterMap
              Op.encrypt.entry)).FieldByName w.1).map Field.value = some (GoValue.str w.2))
      ∧ ∀ f ∈ mixed,
          f.desc.Name ∉ ([entry "TmFtZQ==" "ciphertext" "vault:v1:A"].filterMap
            Op.encrypt.entry).map Prod.fst →
          (mixed.applyWrites ([entry "TmFtZQ==" "ciphertext" "vault:v1:A"].filterMap
            Op.encrypt.entry)).FieldByName f.desc.Name = some f :=
  short_response Op.encrypt mixed testKey
    (dataOf [entry "TmFtZQ==" "ciphertext" "vault:v1:A"])
    [entry "TmFtZQ==" "ciphertext" "vault:v1:A"]
    (by decide) (by decide) rfl
    (by
      intro e he
      rw [List.mem_singleton] at he
      subst he
      exact ⟨(gostr "Name", gostr "vault:v1:A"), by decide, by decide⟩)
    (by decide)

/-- C17, refuted as stated. The first entry is well formed and its reference
decodes to the selected field `token`, the second has the reference `%%%`,
which is not valid base64. `Encrypt` does not return an error: `token` is
unexported and `SetString` panics at the first entry. -/
theorem partial_mutation_unexported :
    secretive.WellFormed
      ∧ encryptEntry (entry "dG9rZW4=" "ciphertext" "vault:v1:abc")
          = some (gostr "token", gostr "vault:v1:abc")
      ∧ (∃ f ∈ secretive, eligible f.desc = true ∧ f.desc.Name = gostr "token")
      ∧ DecodeString (gostr "%%%") = none
      ∧ Encrypt (respond (WriteResult.secret (dataOf
            [entry "dG9rZW4=" "ciphertext" "vault:v1:abc",
             entry "%%%" "ciphertext" "vault:v1:def"])))
          (Obj.ptr (Target.struct secretive)) testKey
        = ⟨Obj.ptr (Target.struct secretive),
            [(gostr "transit/encrypt/my-encryption-key", encryptRequest secretive)],
            Outcome.panicked Panic.reflectMisuse⟩ := by
  refine ⟨by decide, by decide, by decide, by decide, by decide⟩

/-- C17, amended. For a well-formed struct with at least one selected field,
a non-empty key and an `Encrypt` response whose first k entries are well
formed with references decoding to names of exported selected fields and
whose entry k+1 is a map with a string `reference` that is not valid base64,
`Encrypt` returns the decoding error and the struct is the original with
exactly the writes of the first k entries applied: nothing is rolled back and
no later entry is applied. -/
theorem partial_mutation (value : Record) (encryptionKey : GoString)
    (Data : List (GoString × Any)) (good : List Any) (m : List (GoString × Any))
    (rest : List Any) (ref : GoString)
    (hkey : encryptionKey ≠ []) (hwf : value.WellFormed)
    (hsome : ∃ f ∈ value, eligible f.desc = true)
    (hres : mapIndex Data (gostr "batch_results") = Any.slice (good ++ Any.map m :: rest))
    (hgood : ∀ e ∈ good, ∃ w, encryptEntry e = some w ∧
      ∃ f ∈ value, eligible f.desc = true ∧ f.desc.PkgPath = [] ∧ f.desc.Name = w.1)
    (href : mapIndex m (gostr "reference") = Any.str ref)
    (hbad : DecodeString ref = none) :
    (Encrypt (respond (WriteResult.secret Data)) (Obj.ptr (Target.struct value))
        encryptionKey).outcome = Outcome.returned (some GoError.corruptInput)
      ∧ (Encrypt (respond (WriteResult.secret Data)) (Obj.ptr (Target.struct value))
        encryptionKey).obj
          = Obj.ptr (Target.struct (value.applyWrites (good.filterMap encryptEntry))) := by
  have hset := Op.settable_of_named Op.encrypt value good hwf hgood
  obtain ⟨hobj, hout⟩ := Op.run_prefix Op.encrypt value encryptionKey Data good
    (Any.map m :: rest) hkey hsome hres hset
  simp only [Op.loop, Op.entry, Op.run,
    encryptResults_cons_corrupt _ m rest ref href hbad] at hobj hout
  exact ⟨hout, hobj⟩

/-- C17, witness: the struct with the exported `Name` and the unexported
`token`; an entry for `Name`, then an entry whose reference is not base64,
then an entry that is never reached. -/
theorem partial_mutation_witness :
    (Encrypt (respond (WriteResult.secret (dataOf
          [entry "TmFtZQ==" "ciphertext" "vault:v1:A", entry "%%%" "ciphertext" "vault:v1:X",
           entry "dG9rZW4=" "ciphertext" "vault:v1:B"])))
        (Obj.ptr (Target.struct mixed)) testKey).outcome
        = Outcome.returned (some GoError.corruptInput)
      ∧ (Encrypt (respond (WriteResult.secret (dataOf
          [entry "TmFtZQ==" "ciphertext" "vault:v1:A", entry "%%%" "ciphertext" "vault:v1:X",
           entry "dG9rZW4=" "ciphertext" "vault:v1:B"])))
        (Obj.ptr (Target.struct mixed)) testKey).obj
          = Obj.ptr (Target.struct (mixed.applyWrites
              ([entry "TmFtZQ==" "ciphertext" "vault:v1:A"].filterMap encryptEntry))) :=
  partial_mutation mixed testKey
    (dataOf [entry "TmFtZQ==" "ciphertext" "vault:v1:A",
      entry "%%%" "ciphertext" "vault:v1:X", entry "dG9rZW4=" "ciphertext" "vault:v1:B"])
    [entry "TmFtZQ==" "ciphertext" "vault:v1:A"]
    [(gostr "reference", Any.str (gostr "%%%")),
      (gostr "ciphertext", Any.str (gostr "vault:v1:X"))]
    [entry "dG9rZW4=" "ciphertext" "vault:v1:B"] (gostr "%%%")
    (by decide) (by decide) (by decide) rfl
    (by
      intro e he
      rw [List.mem_singleton] at he
      subst he
      exact ⟨(gostr "Name", gostr "vault:v1:A"), by decide, by decide⟩)
    rfl (by decide)

/-- C18, refuted as stated. The test struct has two selected fields and the
response has three well-formed entries, `Name` being named twice. `Encrypt`
returns the nil error, not a response-format error: all three entries are
applied in order and `Name` holds the ciphertext of the last one. -/
theorem surplus_results_accepted :
    (getEncryptedFields (TypeOf person)).length = 2
      ∧ Encrypt (respond (WriteResult.secret (dataOf
            [entry "TmFtZQ==" "ciphertext" "vault:v1:A",
             entry "QWRkcmVzcw==" "ciphertext" "vault:v1:B",
             entry "TmFtZQ==" "ciphertext" "vault:v1:C"])))
          (Obj.ptr (Target.struct person)) testKey
        = ⟨Obj.ptr (Target.struct
            (Record.assign (gostr "Address") (gostr "vault:v1:B")
              (Record.assign (gostr "Name") (gostr "vault:v1:C") person))),
            [(gostr "transit/encrypt/my-encryption-key", encryptRequest person)],
            Outcome.returned none⟩ := by
  refine ⟨by decide, by decide⟩

/-- C18, amended. For a struct with N selected fields, a non-empty key and a
response whose `batch_results` has more than N entries, each well formed
(with valid base64 where the operation decodes) and naming an exported field
of kind `String` of the struct, `Encrypt` and `Decrypt` do not treat the
response as malformed: they return the nil error although the response
carries more than N applicable writes. If N is at least one, every entry has
been applied in order, so that a field named several times holds the value of
the last entry that names it; if N is zero, no request is sent and nothing is
written. -/
theorem surplus_results (op : Op) (value : Record) (encryptionKey : GoString)
    (Data : List (GoString × Any)) (results : List Any)
    (hkey : encryptionKey ≠ [])
    (hres : mapIndex Data (gostr "batch_results") = Any.slice results)
    (hentries : ∀ e ∈ results, ∃ w, op.entry e = some w ∧ value.settable w.1 = true)
    (hmore : (getEncryptedFields (TypeOf value)).length < results.length) :
    (op.run (respond (WriteResult.secret Data)) (Obj.ptr (Target.struct value))
        encryptionKey).outcome = Outcome.returned none
      ∧ (getEncryptedFields (TypeOf value)).length < (results.filterMap op.entry).length
      ∧ ((∃ f ∈ value, eligible f.desc = true) →
          (op.run (respond (WriteResult.secret Data)) (Obj.ptr (Target.struct value))
            encryptionKey).obj
              = Obj.ptr (Target.struct (value.applyWrites (results.filterMap op.entry)))
            ∧ ∀ pre post w, results.filterMap op.entry = pre ++ w :: post →
                w.1 ∉ post.map Prod.fst →
                ((value.applyWrites (results.filterMap op.entry)).FieldByName w.1).map
                  Field.value = some (GoValue.str w.2))
      ∧ ((∀ f ∈ value, eligible f.desc = false) →
          op.run (respond (WriteResult.secret Data)) (Obj.ptr (Target.struct value))
              encryptionKey
            = ⟨Obj.ptr (Target.struct value), [], Outcome.returned none⟩) := by
  have hnoop : (∀ f ∈ value, eligible f.desc = false) →
      op.run (respond (WriteResult.secret Data)) (Obj.ptr (Target.struct value))
          encryptionKey
        = ⟨Obj.ptr (Target.struct value), [], Outcome.returned none⟩ := by
    intro hnone
    have h := no_eligible_frame (respond (WriteResult.secret Data)) value encryptionKey
      hkey hnone
    cases op with
    | encrypt => exact h.1
    | decrypt => exact h.2
  refine ⟨?_, ?_, ?_, hnoop⟩
  rotate_left
  · rw [length_filterMap_of_entries results hentries]
    exact hmore
  rotate_left
  · by_cases hsome : ∃ f ∈ value, eligible f.desc = true
    · exact (Op.write_back op value encryptionKey Data results hkey hsome hres hentries).1
    · have hnone : ∀ f ∈ value, eligible f.desc = false := by
        intro f hf
        cases hfe : eligible f.desc with
        | false => rfl
        | true => exact absurd ⟨f, hf, hfe⟩ hsome
      rw [hnoop hnone]
  · intro hsome
    exact ⟨(Op.write_back op value encryptionKey Data results hkey hsome hres hentries).2,
      Op.last_write op value results hentries⟩

/-- C18, witness: the struct with the two selected fields `Name` (exported)
and `token` (unexported) and a response with three entries, all naming
`Name`; `Encrypt` returns the nil error and `Name` holds the last ciphertext. -/
theorem surplus_results_witness :
    (Op.encrypt.run (respond (WriteResult.secret (dataOf
          [entry "TmFtZQ==" "ciphertext" "vault:v1:A",
           entry "TmFtZQ==" "ciphertext" "vault:v1:B",
           entry "TmFtZQ==" "ciphertext" "vault:v1:C"])))
        (Obj.ptr (Target.struct mixed)) testKey).outcome = Outcome.returned none
      ∧ (Op.encrypt.run (respond (WriteResult.secret (dataOf
          [entry "TmFtZQ==" "ciphertext" "vault:v1:A",
           entry "TmFtZQ==" "ciphertext" "vault:v1:B",
           entry "TmFtZQ==" "ciphertext" "vault:v1:C"])))
        (Obj.ptr (Target.struct mixed)) testKey).obj
          = Obj.ptr (Target.struct (mixed.applyWrites
              ([entry "TmFtZQ==" "ciphertext" "vault:v1:A",
                entry "TmFtZQ==" "ciphertext" "vault:v1:B",
                entry "TmFtZQ==" "ciphertext" "vault:v1:C"].filterMap Op.encrypt.entry)))
      ∧ ((mixed.applyWrites
            ([entry "TmFtZQ==" "ciphertext" "vault:v1:A",
              entry "TmFtZQ==" "ciphertext" "vault:v1:B",
              entry "TmFtZQ==" "ciphertext" "vault:v1:C"].filterMap
                Op.encrypt.entry)).FieldByName (gostr "Name")).map Field.value
          = some (GoValue.str (gostr "vault:v1:C")) :=
  have h := surplus_results Op.encrypt mixed testKey
    (dataOf [entry "TmFtZQ==" "ciphertext" "vault:v1:A",
      entry "TmFtZQ==" "ciphertext" "vault:v1:B", entry "TmFtZQ==" "ciphertext" "vault:v1:C"])
    [entry "TmFtZQ==" "ciphertext" "vault:v1:A",
      entry "TmFtZQ==" "ciphertext" "vault:v1:B", entry "TmFtZQ==" "ciphertext" "vault:v1:C"]
    (by decide) rfl
    (by
      intro e he
      simp only [List.mem_cons, List.mem_singleton, List.not_mem_nil, or_false] at he
      rcases he with rfl | rfl | rfl
      · exact ⟨(gostr "Name", gostr "vault:v1:A"), by decide, by decide⟩
      · exact ⟨(gostr "Name", gostr "vault:v1:B"), by decide, by decide⟩
      · exact ⟨(gostr "Name", gostr "vault:v1:C"), by decide, by decide⟩)
    (by decide)
  ⟨h.1, (h.2.2.1 (by decide)).1,
    (h.2.2.1 (by decide)).2
      [(gostr "Name", gostr "vault:v1:A"), (gostr "Name", gostr "vault:v1:B")] []
      (gostr "Name", gostr "vault:v1:C") (by decide) (by decide)⟩

/-- C19. For every well-formed struct behind the pointer, every key and every
behaviour of the remote service: if every field name that the loop of
`Encrypt` or `Decrypt` hands to `SetString` resolves to a selected field, then
after the call, however it ends, the field descriptors (names, types, tags)
are the same and every field that is not selected holds its original value;
a field whose value changed is one whose name the loop handed to `SetString`. -/
theorem conditional_frame (op : Op) (c : Client) (value : Record)
    (encryptionKey : GoString) (hwf : value.WellFormed)
    (hresolve : ∀ call ∈ (op.run c (Obj.ptr (Target.struct value)) encryptionKey).calls,
      ∀ n ∈ op.processed value (batchResults (c.vaultClient call.1 call.2)),
        value.resolvesEligible n = true) :
    ∃ value1,
      (op.run c (Obj.ptr (Target.struct value)) encryptionKey).obj
          = Obj.ptr (Target.struct value1)
        ∧ TypeOf value1 = TypeOf value
        ∧ List.Forall₂ (fun f f1 => f1.desc = f.desc ∧
            (eligible f.desc = false → f1.value = f.value)) value value1
        ∧ List.Forall₂ (fun f f1 => f1.value ≠ f.value →
            ∃ call ∈ (op.run c (Obj.ptr (Target.struct value)) encryptionKey).calls,
              f.desc.Name ∈ op.processed value
                (batchResults (c.vaultClient call.1 call.2))) value value1 := by
  obtain ⟨value1, hobj, hframe⟩ := Op.run_Touched_processed op c value encryptionKey
  have h := hframe
    ((op.run c (Obj.ptr (Target.struct value)) encryptionKey).calls.flatMap
      (fun call => op.processed value (batchResults (c.vaultClient call.1 call.2))))
    (fun call hcall n hn => List.mem_flatMap.2 ⟨call, hcall, hn⟩)
  have hF : List.Forall₂ (fun f f1 => f1.desc = f.desc ∧
      (eligible f.desc = false → f1.value = f.value)) value value1 := by
    refine (forall2_and_mem h value (fun _ hx => hx)).imp (fun f f1 ht => ?_)
    obtain ⟨hf, hdesc, hchange⟩ := ht
    refine ⟨hdesc, fun hnot => ?_⟩
    by_contra hne
    obtain ⟨hmem, _, _⟩ := hchange hne
    obtain ⟨call, hcall, hn⟩ := List.mem_flatMap.1 hmem
    have hr := hresolve call hcall _ hn
    simp only [Record.resolvesEligible, FieldByName_of_mem value hwf f hf] at hr
    rw [hr] at hnot
    cases hnot
  refine ⟨value1, hobj, TypeOf_of_same_desc hF, hF, h.imp (fun f f1 ht hne => ?_)⟩
  obtain ⟨call, hcall, hn⟩ := List.mem_flatMap.1 (ht.2 hne).1
  exact ⟨call, hcall, hn⟩

/-- C19, witness: `Encrypt` of the test struct; the response names `Name` and
then carries an entry that stops the loop. -/
theorem conditional_frame_witness :
    ∃ value1,
      (Op.encrypt.run (respond (WriteResult.secret (dataOf
          [entry "TmFtZQ==" "ciphertext" "vault:v1:A", Any.str (gostr "oops")])))
        (Obj.ptr (Target.struct person)) testKey).obj = Obj.ptr (Target.struct value1)
        ∧ TypeOf value1 = TypeOf person
        ∧ List.Forall₂ (fun f f1 => f1.desc = f.desc ∧
            (eligible f.desc = false → f1.value = f.value)) person value1
        ∧ List.Forall₂ (fun f f1 => f1.value ≠ f.value →
            ∃ call ∈ (Op.encrypt.run (respond (WriteResult.secret (dataOf
                [entry "TmFtZQ==" "ciphertext" "vault:v1:A", Any.str (gostr "oops")])))
                (Obj.ptr (Target.struct person)) testKey).calls,
              f.desc.Name ∈ Op.encrypt.processed person
                (batchResults ((respond (WriteResult.secret (dataOf
                  [entry "TmFtZQ==" "ciphertext" "vault:v1:A",
                    Any.str (gostr "oops")]))).vaultClient call.1 call.2))) person value1 :=
  conditional_frame Op.encrypt (respond (WriteResult.secret (dataOf
      [entry "TmFtZQ==" "ciphertext" "vault:v1:A", Any.str (gostr "oops")])))
    person testKey (by decide) (by decide)

/-- C20. `getEncryptedFields` selects a field only if its `encrypted` tag value
is exactly `true` and its declared type is the built-in `string`. A field
whose tag value is any other text is not selected, for instance `TRUE`,
`True`, `1`, `yes`, `true` between spaces, or no tag at all; a field of a
defined type with underlying type `string` is not selected. Every item that
`Encrypt` sends is built from a selected field, so a field that is not
selected is never sent for encryption. -/
theorem exact_marker_and_type :
    (∀ (st : StructType) (f : StructField), f ∈ getEncryptedFields st →
        f.Tag.Get (gostr "encrypted") = gostr "true" ∧ f.Typ = GoType.string)
      ∧ gostr "true" = [116, 114, 117, 101]
      ∧ (∀ (st : StructType) (f : StructField),
          f.Tag.Get (gostr "encrypted") ≠ gostr "true" → f ∉ getEncryptedFields st)
      ∧ (∀ t ∈ [gostr "TRUE", gostr "True", gostr "1", gostr "yes", gostr " true ", gostr ""],
          StructTag.Get [(gostr "encrypted", t)] (gostr "encrypted") ≠ gostr "true")
      ∧ StructTag.Get [] (gostr "encrypted") ≠ gostr "true"
      ∧ (∀ (st : StructType) (f : StructField),
          f.Typ ≠ GoType.string → f ∉ getEncryptedFields st)
      ∧ (∀ (name : GoString) (underlying : GoType),
          GoType.named name underlying ≠ GoType.string)
      ∧ ∀ (c : Client) (value : Record) (encryptionKey : GoString),
          ∀ call ∈ (Encrypt c (Obj.ptr (Target.struct value)) encryptionKey).calls,
          ∀ kv ∈ call.2, ∀ item ∈ kv.2,
            ∃ field ∈ getEncryptedFields (TypeOf value),
              field.Tag.Get (gostr "encrypted") = gostr "true"
                ∧ field.Typ = GoType.string
                ∧ item = [(gostr "plaintext",
                      ItemValue.bytes (Value.String (value.FieldByName field.Name))),
                    (gostr "reference", ItemValue.bytes field.Name)] := by
  have hsel : ∀ (st : StructType) (f : StructField), f ∈ getEncryptedFields st →
      f.Tag.Get (gostr "encrypted") = gostr "true" ∧ f.Typ = GoType.string := by
    intro st f hf
    rw [getEncryptedFields_eq_filter, List.mem_filter] at hf
    have he := hf.2
    simp only [eligible, Bool.and_eq_true, decide_eq_true_eq] at he
    exact ⟨he.2, he.1⟩
  refine ⟨hsel, by decide, ?_, by decide, by decide, ?_, ?_, ?_⟩
  · exact fun st f hne hf => hne (hsel st f hf).1
  · exact fun st f hne hf => hne (hsel st f hf).2
  · intro name underlying h
    cases h
  · intro c value encryptionKey call hcall kv hkv item hitem
    rcases Op.run_calls_cases Op.encrypt c value encryptionKey with h | h
    · simp only [Op.run] at h
      rw [h] at hcall
      cases hcall
    · simp only [Op.run, Op.path, Op.request] at h
      rw [h, List.mem_singleton] at hcall
      subst hcall
      simp only [encryptRequest, List.mem_singleton] at hkv
      subst hkv
      obtain ⟨field, hfield, rfl⟩ := List.mem_map.1 hitem
      exact ⟨field, hfield, (hsel _ field hfield).1, (hsel _ field hfield).2, rfl⟩

end Cipher
